import Mathlib

/-!
Shallow embedding of the two signature extractors of this repository
(`extract_api_signatures.py` and `extract_rhinoscriptsyntax_signatures.py`).

Python strings are modelled as `List Char`; Python `None`-able strings as
`Option (List Char)`; functions that can raise are modelled with `Except`.
-/

/-- Python strings are modelled as lists of characters. -/
abbrev Str := List Char

/-- Coerce a Lean string literal into the `Str` model. -/
def str (s : String) : Str := s.data

/-- The character `{` (written via its code point). -/
def lbrace : Char := Char.ofNat 123

/-- The character `}` (written via its code point). -/
def rbrace : Char := Char.ofNat 125

/-- Python `str.strip()` whitespace: space, tab, newline, carriage return,
vertical tab, form feed. -/
def pyWS (c : Char) : Bool :=
  c = ' ' || c = '\t' || c = '\n' || c = '\r' || c = Char.ofNat 11 || c = Char.ofNat 12

/-- Python `str.lstrip()` (whitespace) on the char-list model. -/
def trimLeft (s : Str) : Str := s.dropWhile pyWS

/-- Python `str.rstrip()` (whitespace) on the char-list model. -/
def trimRight (s : Str) : Str := (s.reverse.dropWhile pyWS).reverse

/-- Python `str.strip()` on the char-list model. -/
def pyStrip (s : Str) : Str := trimRight (trimLeft s)

/-- Boolean string-prefix test (`s.startswith(pat)` is `isPre pat s`). -/
def isPre : Str → Str → Bool
  | [], _ => true
  | _ :: _, [] => false
  | a :: as, b :: bs => a = b && isPre as bs

/-- Boolean string-suffix test (`s.endswith(pat)` is `endsW s pat`). -/
def endsW (s pat : Str) : Bool := isPre pat.reverse s.reverse

/-- Python `s[:-n]`: drop the last `n` characters. -/
def dropR (n : Nat) (s : Str) : Str := s.take (s.length - n)

/-- Split at the first occurrence of a character: `s.split(c, 1)` when `c` occurs,
returning the parts before and after the separator. -/
def splitFirst (c : Char) : Str → Option (Str × Str)
  | [] => none
  | x :: xs =>
    if x = c then some ([], xs)
    else (splitFirst c xs).map (fun p => (x :: p.1, p.2))

/-- Split at the first occurrence of a (nonempty) substring, returning the part
before and the part after it; `none` when the substring does not occur.
Models Python `s.split(pat, 1)` / `pat in s` / `s.find(pat)`. -/
def splitFirstSub (pat : Str) : Str → Option (Str × Str)
  | [] => if isPre pat [] then some ([], []) else none
  | c :: cs =>
    if isPre pat (c :: cs) then some ([], (c :: cs).drop pat.length)
    else (splitFirstSub pat cs).map (fun p => (c :: p.1, p.2))

/-- Python `pat in s` for a substring `pat`. -/
def hasSub (pat s : Str) : Bool := (splitFirstSub pat s).isSome

/-- Python `c in s` for a single character. -/
def hasChar (c : Char) (s : Str) : Bool := decide (c ∈ s)

/-- Split at the last occurrence of a character (`s.rsplit(c, 1)`), returning
the parts before and after; `none` when the character does not occur. -/
def splitLast (c : Char) (s : Str) : Option (Str × Str) :=
  ((splitFirst c s.reverse).map (fun p => (p.2.reverse, p.1.reverse)))

/-- Python `s.split(pat)` for a nonempty separator substring, with fuel. -/
def splitAllSubF (pat : Str) : Nat → Str → List Str
  | 0, s => [s]
  | f + 1, s =>
    match splitFirstSub pat s with
    | none => [s]
    | some (b, a) => b :: splitAllSubF pat f a

/-- Python `s.split(pat)` for a nonempty separator substring. -/
def splitAllSub (pat s : Str) : List Str := splitAllSubF pat (s.length + 1) s

/-- Helper for `splitWS`: carries the current word (reversed). -/
def splitWSAux : Str → Str → List Str
  | [], w => if w = [] then [] else [w.reverse]
  | c :: cs, w =>
    if pyWS c then (if w = [] then splitWSAux cs [] else w.reverse :: splitWSAux cs [])
    else splitWSAux cs (c :: w)

/-- Python `s.split()` (split on whitespace runs, dropping empty tokens). -/
def splitWS (s : Str) : List Str := splitWSAux s []

/-- Python `' '.join(tokens)`. -/
def joinSp (ts : List Str) : Str := List.intercalate (str " ") ts

/-- Python `', '.join(parts)`. -/
def joinCommaSp (ts : List Str) : Str := List.intercalate (str ", ") ts

/-- Python `s.split('.')[-1]`: last dot-separated segment. -/
def lastSeg (s : Str) : Str := (splitAllSub (str ".") s).getLast!

/-- Replace every occurrence of one character by another (Python `s.replace(a, b)`
for single characters). -/
def replaceChar (a b : Char) (s : Str) : Str := s.map (fun c => if c = a then b else c)

/-- Remove every occurrence of a (nonempty) substring, with fuel.
Models Python `s.replace(pat, '')`. -/
def removeSubF (pat : Str) : Nat → Str → Str
  | 0, s => s
  | f + 1, s =>
    match s with
    | [] => []
    | c :: cs => if isPre pat s then removeSubF pat f (s.drop pat.length) else c :: removeSubF pat f cs

/-- Python `s.replace(pat, '')` for a nonempty pattern. -/
def removeSub (pat s : Str) : Str := removeSubF pat (s.length + 1) s

/-- Python `s.rstrip(c)` for a single stripped character. -/
def rstripChar (c : Char) (s : Str) : Str := (s.reverse.dropWhile (fun x => x = c)).reverse

/-- Python `s.lstrip(c)` for a single stripped character. -/
def lstripChar (c : Char) (s : Str) : Str := s.dropWhile (fun x => x = c)

/-- Decimal digits of a natural number, with fuel. -/
def natStrF : Nat → Nat → Str
  | 0, _ => []
  | f + 1, n => if n < 10 then [Nat.digitChar n] else natStrF f (n / 10) ++ [Nat.digitChar (n % 10)]

/-- Python `str(n)` for a natural number. -/
def natStr (n : Nat) : Str := natStrF (n + 1) n

/-- Association-list lookup, modelling Python `dict.get(key)` (keys are unique
in all the dictionaries of the source). -/
def lookupL (k : Str) (m : List (Str × Str)) : Option Str :=
  (m.find? (fun kv => kv.1 = k)).map (fun kv => kv.2)

/-- Python truthiness of an optional string (`None` and `''` are falsy). -/
def truthyS : Option Str → Bool
  | none => false
  | some s => s ≠ []

/-- Python `a or b` on optional strings (returns `b` whenever `a` is falsy). -/
def pyOrOpt (a b : Option Str) : Option Str := if truthyS a then a else b

/-! ### `extract_api_signatures.py` -/

/-- The character scan of `split_types_list`: one step per character, carrying
the buffer (reversed) and the three clamped depth counters.  Clamping
(`max(0, d-1)`) is Nat subtraction.  Mirrors the `for ch in s` loop. -/
def splitTypesAux : Str → Str → Nat → Nat → Nat → List Str
  | [], buf, _, _, _ => if buf = [] then [] else [pyStrip buf.reverse]
  | ch :: rest, buf, da, dc, dp =>
    if ch = '<' then splitTypesAux rest (ch :: buf) (da + 1) dc dp
    else if ch = '>' then splitTypesAux rest (ch :: buf) (da - 1) dc dp
    else if ch = lbrace then splitTypesAux rest (ch :: buf) da (dc + 1) dp
    else if ch = rbrace then splitTypesAux rest (ch :: buf) da (dc - 1) dp
    else if ch = '(' then splitTypesAux rest (ch :: buf) da dc (dp + 1)
    else if ch = ')' then splitTypesAux rest (ch :: buf) da dc (dp - 1)
    else if ch = ',' ∧ da = 0 ∧ dc = 0 ∧ dp = 0 then
      pyStrip buf.reverse :: splitTypesAux rest [] da dc dp
    else splitTypesAux rest (ch :: buf) da dc dp

/-- `split_types_list` from `extract_api_signatures.py`: split a comma-separated
type list, ignoring commas nested inside angle brackets, curly braces or
parentheses, trimming parts and dropping empty ones. -/
def split_types_list (s : Str) : List Str :=
  (splitTypesAux s [] 0 0 0).filter (fun p => p ≠ [])

/-- `parse_help_id` from `extract_api_signatures.py`.  Parses a
`Microsoft.Help.Id` string for methods into
`(container_fqn, method_raw, param_types)`.  The Python tuple unpacking
`container_fqn, method_raw = left.rsplit('.', 1)` raises `ValueError` when
`left` contains no dot; this is modelled by `Except.error`. -/
def parse_help_id (help_id : Str) : Except String (Option Str × Option Str × List Str) :=
  if help_id = [] ∨ ¬ isPre (str "M:") help_id then Except.ok (none, none, [])
  else
    let body := help_id.drop 2
    let lp : Str × Str :=
      match splitFirst '(' body with
      | some (left, right) =>
        (left,
          match splitLast ')' right with
          | some (before, _after) => before
          | none => right)
      | none => (body, [])
    let left := lp.1
    let params_part := lp.2
    let param_types := if params_part ≠ [] then split_types_list params_part else []
    if hasSub (str ".#ctor") left then
      Except.ok (some ((splitFirstSub (str ".#ctor") left).getD ([], [])).1, some (str "#ctor"), param_types)
    else
      match splitLast '.' left with
      | some (container, meth) => Except.ok (some container, some meth, param_types)
      | none => Except.error "ValueError"

/-- `CS_ACCESS_KWS` from the source. -/
def accessKws : List Str := [str "public", str "private", str "protected", str "internal"]

/-- `CS_MODIFIER_KWS` from the source. -/
def modifierKws : List Str :=
  [str "static", str "virtual", str "override", str "sealed", str "extern", str "unsafe",
   str "abstract", str "new", str "readonly", str "partial", str "async"]

/-- Index (if any) of the `=` realising the leftmost match of the Python regex
`\s*=\s*[^,]+$` (used by `re.sub` to delete a trailing default value): the first
`=` whose suffix is nonempty and free of commas. -/
def defaultEqIdx : Str → Option Nat
  | [] => none
  | c :: cs =>
    if c = '=' ∧ cs ≠ [] ∧ hasChar ',' cs = false then some 0
    else (defaultEqIdx cs).map (fun i => i + 1)

/-- `re.sub(r'\s*=\s*[^,]+$', '', p)`: remove a trailing `= value` clause
together with the whitespace run preceding the `=`. -/
def stripDefault (p : Str) : Str :=
  match defaultEqIdx p with
  | some j => trimRight (p.take j)
  | none => p

/-- The qualifier keywords of `re.sub(r'^(this|ref|out|params|in)\s+', '', p)`,
in alternation order. -/
def qualKws : List Str := [str "this", str "ref", str "out", str "params", str "in"]

/-- Does a qualifier keyword match at the start of `p` (followed by whitespace)? -/
def qualMatch (kw p : Str) : Bool :=
  isPre kw p &&
    (match p.drop kw.length with
     | [] => false
     | c :: _ => pyWS c)

/-- `re.sub(r'^(this|ref|out|params|in)\s+', '', p)`: remove a leading
reference/output qualifier keyword and the (greedy) whitespace run after it. -/
def stripQual (p : Str) : Str :=
  match qualKws.find? (fun kw => qualMatch kw p) with
  | some kw => trimLeft (p.drop kw.length)
  | none => p

/-- The Python regex `^[A-Za-z_]\w*$` (ASCII reading of `\w`). -/
def isIdent (s : Str) : Bool :=
  match s with
  | [] => false
  | c :: cs => (c.isAlpha || c = '_') && cs.all (fun x => x.isAlphanum || x = '_')

/-- One iteration of the parameter-name loop of `parse_csharp_signature`:
clean one comma-separated segment into a name, substituting `argN` for
ill-formed names. -/
def cleanParamName (acc : List Str) (p : Str) : List Str :=
  let p1 := pyStrip p
  let p2 := stripDefault p1
  let p3 := stripQual p2
  match (splitWS p3).getLast? with
  | some tk =>
    let n1 := rstripChar ',' tk
    let n2 := removeSub (str "[]") n1
    let n3 := lstripChar '@' n2
    if isIdent n3 then acc ++ [n3] else acc ++ [str "arg" ++ natStr (acc.length + 1)]
  | none => acc ++ [str "arg" ++ natStr (acc.length + 1)]

/-- First index of a character (callers guard on `hasChar`). -/
def idxOf (c : Char) (s : Str) : Nat := s.findIdx (fun x => x = c)

/-- `parse_csharp_signature` from `extract_api_signatures.py`. Returns
`(return_type, method_name, param_names, is_static)`.  The
`container_simple` argument is unused by the source body (it only documents
intent) but is kept for fidelity. -/
def parse_csharp_signature (cs_text : Str) (_container_simple : Option Str) :
    Option Str × Option Str × List Str × Bool :=
  if cs_text = [] then (none, none, [], false)
  else
    let text0 := pyStrip cs_text
    let text := if hasChar ')' text0 then text0.take (idxOf ')' text0 + 1) else text0
    let oneline := joinSp (splitWS text)
    let is_static := hasSub (str " static ") (str " " ++ oneline ++ str " ")
    let hp : Str × Str :=
      if hasChar '(' oneline ∧ hasChar ')' oneline then
        match splitFirst '(' oneline with
        | some (h, ps) =>
          (h, pyStrip (match splitLast ')' ps with | some (b, _a) => b | none => ps))
        | none => (oneline, [])
      else (oneline, [])
    let head := hp.1
    let params_part := hp.2
    let head_tokens :=
      (splitWS (pyStrip head)).filter (fun t => decide (t ∉ accessKws ∧ t ∉ modifierKws))
    let mnrt : Option Str × Option Str :=
      match head_tokens.reverse with
      | [] => (none, none)
      | [m] => (none, some m)
      | m :: r :: _ => (some r, some m)
    let param_names :=
      if params_part ≠ [] then (split_types_list params_part).foldl cleanParamName [] else []
    (mnrt.1, mnrt.2, param_names, is_static)

/-- The `aliases` dictionary of `map_dotnet_to_python`. -/
def aliases : List (Str × Str) :=
  [(str "System.Void", str "None"), (str "void", str "None"),
   (str "System.Boolean", str "bool"), (str "bool", str "bool"),
   (str "System.Double", str "float"), (str "double", str "float"),
   (str "System.Single", str "float"), (str "float", str "float"),
   (str "System.Int32", str "int"), (str "int", str "int"),
   (str "System.Int64", str "int"), (str "long", str "int"),
   (str "System.String", str "str"), (str "string", str "str"),
   (str "System.Object", str "Any"), (str "object", str "Any")]

/-- The `base_map` dictionary of `map_dotnet_to_python`. -/
def base_map : List (Str × Str) :=
  [(str "System.Collections.Generic.List", str "List"),
   (str "System.Collections.Generic.IList", str "List"),
   (str "System.Collections.Generic.IReadOnlyList", str "Sequence"),
   (str "System.Collections.Generic.IEnumerable", str "Iterable"),
   (str "System.Collections.Generic.ICollection", str "Sequence"),
   (str "System.Collections.Generic.Dictionary", str "Dict"),
   (str "System.Collections.Generic.IDictionary", str "Dict"),
   (str "System.Tuple", str "Tuple")]

/-- Body check shared by both alternatives of the nullable regex
`(?:System\.)?Nullable\{(.+)\}$`: the rest must end in `}` with a nonempty,
newline-free middle (`.` does not match newlines). -/
def nullCheckBody (rest : Str) : Option Str :=
  if endsW rest [rbrace] ∧ 2 ≤ rest.length ∧ hasChar '\n' (dropR 1 rest) = false then
    some (dropR 1 rest)
  else none

/-- `re.match(r'(?:System\.)?Nullable\{(.+)\}$', t)`: the captured group. -/
def nullableInner (t : Str) : Option Str :=
  if isPre (str "System.Nullable\x7b") t then nullCheckBody (t.drop 16)
  else if isPre (str "Nullable\x7b") t then nullCheckBody (t.drop 9)
  else none

/-- Characters matched by `[\w\.]` (ASCII reading of `\w`). -/
def isWordDot (c : Char) : Bool := c.isAlphanum || c = '_' || c = '.'

/-- `re.match(r'(?P<base>[\w\.]+)\{(?P<inner>.+)\}$', t)`: the base is the
maximal leading `[\w.]+` run, followed immediately by `{`, with a nonempty,
newline-free inner part and a final `}`. -/
def genericMatch (t : Str) : Option (Str × Str) :=
  let base := t.takeWhile isWordDot
  let rest := t.drop base.length
  let inner := dropR 1 (rest.drop 1)
  if base ≠ [] ∧ isPre [lbrace] rest ∧ endsW t [rbrace] ∧ inner ≠ [] ∧ hasChar '\n' inner = false then
    some (base, inner)
  else none

/-- Fuelled body of `map_dotnet_to_python` (the Python function recurses on
strictly shorter strings, so any fuel above the length of the argument
computes the limit value; see `mapFuel_irrel`). -/
def mapFuel : Nat → Str → Option Str → Option Str → Str
  | 0, t0, _, _ => pyStrip t0
  | f + 1, t0, container_fqn, container_simple =>
    let t := pyStrip t0
    if endsW t (str "[]") then
      str "List[" ++ mapFuel f (pyStrip (dropR 2 t)) container_fqn container_simple ++ str "]"
    else
      match nullableInner t with
      | some m =>
        str "Optional[" ++ mapFuel f (pyStrip m) container_fqn container_simple ++ str "]"
      | none =>
        if endsW t (str "?") ∧ ¬ endsW t (str "??") then
          str "Optional[" ++ mapFuel f (dropR 1 t) container_fqn container_simple ++ str "]"
        else
          match genericMatch t with
          | some bi =>
            let inner_parts := split_types_list bi.2
            let mapped := inner_parts.map (fun p => mapFuel f p container_fqn container_simple)
            let py_base := (lookupL bi.1 base_map).getD (lastSeg bi.1)
            py_base ++ str "[" ++ joinCommaSp mapped ++ str "]"
          | none =>
            match lookupL t aliases with
            | some v => v
            | none =>
              match container_simple with
              | some c =>
                if c ≠ [] ∧ t = c then
                  (match container_fqn with
                   | some fq => if fq ≠ [] then fq else t
                   | none => t)
                else t
              | none => t

/-- `map_dotnet_to_python` from `extract_api_signatures.py` (Variant A of the
type normalizer). -/
def map_dotnet_to_python (t : Str) (container_fqn container_simple : Option Str) : Str :=
  mapFuel (t.length + 1) t container_fqn container_simple

/-- `container_simple = container_fqn.split('.')[-1] if container_fqn else None`. -/
def bsl_container_simple (container_fqn : Str) : Option Str :=
  if container_fqn ≠ [] then some (lastSeg container_fqn) else none

/-- The constructor test of `build_signature_line`: `method_raw == '#ctor' or
(cs_method_name and container_simple and cs_method_name == container_simple)`. -/
def bsl_is_ctor (container_simple method_raw cs_method_name : Option Str) : Bool :=
  method_raw = some (str "#ctor") ||
    (truthyS cs_method_name && truthyS container_simple && cs_method_name = container_simple)

/-- The emitted method name of `build_signature_line` (`'__init__'` for
constructors, else `cs_method_name or method_raw`). -/
def bsl_method_name (is_ctor : Bool) (method_raw cs_method_name : Option Str) : Str :=
  if is_ctor then str "__init__"
  else
    match pyOrOpt cs_method_name method_raw with
    | some s => s
    | none => str "None"

/-- The emitted return label of `build_signature_line` (`'None'` for
constructors, else the mapped `cs_return_type or 'None'`). -/
def bsl_return (is_ctor : Bool) (cs_return_type : Option Str) (container_fqn : Str)
    (container_simple : Option Str) : Str :=
  if is_ctor then str "None"
  else
    map_dotnet_to_python
      (match pyOrOpt cs_return_type (some (str "None")) with
       | some s => s
       | none => str "None")
      (some container_fqn) container_simple

/-- The fallback positional parameter names `arg1 .. argN`. -/
def placeholders (n : Nat) : List Str :=
  (List.range n).map (fun i => str "arg" ++ natStr (i + 1))

/-- `build_signature_line` from `extract_api_signatures.py`. -/
def build_signature_line (container_fqn : Str) (method_raw : Option Str) (param_types : List Str)
    (cs_return_type cs_method_name : Option Str) (param_names : List Str) (is_static : Bool) :
    Str :=
  let container_simple := bsl_container_simple container_fqn
  let is_ctor := bsl_is_ctor container_simple method_raw cs_method_name
  let py_method_name := bsl_method_name is_ctor method_raw cs_method_name
  let py_return := bsl_return is_ctor cs_return_type container_fqn container_simple
  let ann_types := param_types.map (fun t => map_dotnet_to_python t (some container_fqn) container_simple)
  let names := if param_names.length ≠ ann_types.length then placeholders ann_types.length else param_names
  let self_first := py_method_name = str "__init__" || (!is_static && truthyS cs_method_name)
  let params :=
    (if self_first then [str "self"] else []) ++
      List.zipWith (fun n a => n ++ str ": " ++ a) names ann_types
  container_fqn ++ str "." ++ py_method_name ++ str "(" ++ joinCommaSp params ++ str ") -> " ++ py_return

/-- The per-page pipeline of `process_file` (after the HTML of the page has
been reduced to the `Microsoft.Help.Id` content and the C# code text).
The `ValueError` that `parse_help_id` can raise propagates out (it is not
inside the `try` of `process_file`, which only wraps `build_signature_line`;
`build_signature_line` is total in this model). -/
def process_page (help_id cs_text : Option Str) : Except String (Option Str) :=
  match parse_help_id (match help_id with | some s => s | none => []) with
  | Except.error e => Except.error e
  | Except.ok (container_fqn, method_raw, param_types) =>
    let csimple : Option Str :=
      match container_fqn with
      | some c => if c ≠ [] then some (lastSeg c) else none
      | none => none
    let r := parse_csharp_signature (match cs_text with | some s => s | none => []) csimple
    if ¬ truthyS container_fqn ∨ (¬ truthyS method_raw ∧ ¬ truthyS r.2.1) then Except.ok none
    else
      Except.ok (some (build_signature_line (container_fqn.getD []) method_raw param_types
        r.1 r.2.1 r.2.2.1 r.2.2.2))

/-! ### `extract_rhinoscriptsyntax_signatures.py` -/

/-- `norm` from the source: `(s or "").strip().lower()`. -/
def normL (s : Str) : Str := (pyStrip s).map Char.toLower

/-- The `py_map` dictionary of `build_type_mapper`. -/
def py_map : List (Str × Str) :=
  [(str "none", str "None"), (str "void", str "None"),
   (str "bool", str "bool"), (str "boolean", str "bool"),
   (str "number", str "float"), (str "double", str "float"), (str "float", str "float"),
   (str "int", str "int"), (str "integer", str "int"),
   (str "str", str "str"), (str "string", str "str"),
   (str "guid", str "str"), (str "uuid", str "str"),
   (str "date", str "datetime.date"), (str "datetime.date", str "datetime.date"),
   (str "color", str "Tuple[int, int, int]"),
   (str "point", str "Tuple[float, float, float]"),
   (str "point3d", str "Tuple[float, float, float]"),
   (str "vector", str "Tuple[float, float, float]"),
   (str "vector3d", str "Tuple[float, float, float]"),
   (str "interval", str "Tuple[float, float]"),
   (str "plane", str "Any"),
   (str "matrix", str "List[List[float]]"), (str "transform", str "List[List[float]]")]

/-- The `dn_map` dictionary of `build_type_mapper`. -/
def dn_map : List (Str × Str) :=
  [(str "none", str "None"), (str "void", str "None"),
   (str "bool", str "bool"), (str "boolean", str "bool"),
   (str "number", str "float"), (str "double", str "float"), (str "float", str "float"),
   (str "int", str "int"), (str "integer", str "int"),
   (str "str", str "str"), (str "string", str "str"),
   (str "guid", str "System.Guid"), (str "uuid", str "System.Guid"),
   (str "date", str "datetime.date"), (str "datetime.date", str "datetime.date"),
   (str "color", str "System.Drawing.Color"),
   (str "point", str "Rhino.Geometry.Point3d"), (str "point3d", str "Rhino.Geometry.Point3d"),
   (str "vector", str "Rhino.Geometry.Vector3d"), (str "vector3d", str "Rhino.Geometry.Vector3d"),
   (str "interval", str "Tuple[float, float]"),
   (str "plane", str "Rhino.Geometry.Plane"),
   (str "matrix", str "Rhino.Geometry.Transform"), (str "transform", str "Rhino.Geometry.Transform")]

/-- `base_map = dn_map if style == 'dotnet' else py_map`. -/
def rs_base_map (style : Str) : List (Str × Str) :=
  if style = str "dotnet" then dn_map else py_map

/-- Characters of the class `[a-zA-Z0-9_.]`. -/
def wordNumChar (c : Char) : Bool := c.isAlphanum || c = '_' || c = '.'

/-- Value of a nonempty digit string. -/
def natOfDigits (ds : Str) : Nat := ds.foldl (fun a c => a * 10 + (c.toNat - 48)) 0

/-- `re.match(r'(\d+)\s+([a-zA-Z0-9_.]+)s?$', inner)`: a digit run, a whitespace
run, then a `[a-zA-Z0-9_.]+` run to the end (any trailing `s` is absorbed by
the greedy class, so the captured base is the whole tail). -/
def tupleOfMatch (inner : Str) : Option (Nat × Str) :=
  let ds := inner.takeWhile Char.isDigit
  let rest := inner.drop ds.length
  let ws := rest.takeWhile pyWS
  let base := rest.drop ws.length
  if ds ≠ [] ∧ ws ≠ [] ∧ base ≠ [] ∧ base.all wordNumChar then
    some (natOfDigits ds, base)
  else none

/-- The en-dash character replaced by `t.replace('–','-')`. -/
def enDash : Char := Char.ofNat 8211

/-- Fuelled body of the `map_type` closure returned by `build_type_mapper`
(Variant B of the type normalizer).  All recursive calls are on strictly
shorter strings, so any fuel above the length of the argument computes the
limit value; see `rsFuel_irrel`. -/
def rsFuel (style : Str) : Nat → Str → Str
  | 0, _ => str "Any"
  | f + 1, label =>
    let bm := rs_base_map style
    let t1 := normL label
    if t1 = [] then str "Any"
    else
      let t := replaceChar enDash '-' t1
      if hasSub (str " or ") t then
        let parts := ((splitAllSub (str " or ") t).map pyStrip).filter (fun p => p ≠ [])
        match parts.findSome? (fun p =>
          match lookupL p bm with
          | some v => if v ≠ [] then some v else none
          | none => none) with
        | some v => v
        | none => rsFuel style f (((splitFirstSub (str " or ") t).getD ([], [])).1)
      else if isPre (str "list of ") t || isPre (str "array of ") t then
        str "List[" ++ rsFuel style f (pyStrip (((splitFirstSub (str " of ") t).getD ([], [])).2)) ++ str "]"
      else if isPre (str "tuple of ") t then
        match tupleOfMatch (pyStrip (((splitFirstSub (str " of ") t).getD ([], [])).2)) with
        | some nb =>
          str "Tuple[" ++ joinCommaSp (List.replicate nb.1 (rsFuel style f nb.2)) ++ str "]"
        | none => str "Tuple[Any, ...]"
      else
        match lookupL t bm with
        | some v => v
        | none =>
          if hasChar ',' t then
            rsFuel style f (pyStrip (((splitFirst ',' t).getD ([], [])).1))
          else if isPre (str "[") t ∧ hasSub (str "...") t ∧
              (hasSub (str "guid") t ∨ hasSub (str "uuid") t) then
            str "List[" ++ (lookupL (str "guid") bm).getD (str "str") ++ str "]"
          else if hasSub (str "point") t then (lookupL (str "point") bm).getD (str "None")
          else if hasSub (str "vector") t then (lookupL (str "vector") bm).getD (str "None")
          else if hasSub (str "color") t then (lookupL (str "color") bm).getD (str "None")
          else if hasSub (str "interval") t then (lookupL (str "interval") bm).getD (str "None")
          else if hasSub (str "plane") t then (lookupL (str "plane") bm).getD (str "None")
          else if hasSub (str "transform") t ∨ hasSub (str "matrix") t then
            (lookupL (str "transform") bm).getD (str "None")
          else str "Any"

/-- The `map_type` closure returned by `build_type_mapper(style)`. -/
def rs_map_type (style : Str) (label : Str) : Str := rsFuel style (label.length + 1) label

/-- Lookup in the parameters table (`param_types.get(name, ...)`), mapping a
parameter name to its mapped type label and optional flag. -/
def lookupPT (k : Str) (m : List (Str × Str × Bool)) : Option (Str × Bool) :=
  (m.find? (fun kv => kv.1 = k)).map (fun kv => kv.2)

/-- The loop body of `build_typed_signature`: render one `name[, default]`
invocation parameter using the parameters table. -/
def typed_item (param_types : List (Str × Str × Bool)) (p : Str × Option Str) : Str :=
  let pinfo := (lookupPT p.1 param_types).getD (str "Any", false)
  let ad : Str × Option Str :=
    if pinfo.2 ∧ p.2 = none ∧ pinfo.1 ≠ str "Any" ∧ pinfo.1 ≠ str "None" ∧
        ¬ isPre (str "Optional[") pinfo.1 then
      (str "Optional[" ++ pinfo.1 ++ str "]", some (str "None"))
    else (pinfo.1, p.2)
  match ad.2 with
  | none => p.1 ++ str ": " ++ ad.1
  | some d => p.1 ++ str ": " ++ ad.1 ++ str " = " ++ d

/-- `build_typed_signature` from `extract_rhinoscriptsyntax_signatures.py`. -/
def build_typed_signature (func_name : Str) (sig_params : List (Str × Option Str))
    (param_types : List (Str × Str × Bool)) (returns_type : Str) : Str :=
  str "rhinoscriptsyntax." ++ func_name ++ str "(" ++
    joinCommaSp (sig_params.map (typed_item param_types)) ++ str ") -> " ++ returns_type

/-! ### Specification-side definitions

`split_types_spec` is written from the spec's words (section 4.1 / section 8
of the spec): ordered, trimmed, non-empty segments obtained by splitting on
the separator, except at separators inside an open angle/curly/paren scope,
with scope counters clamped at zero and the end of the string flushing the
final segment.  `AForm` is the family of inputs named by the idempotence
claim: alias-table entries and the array/nullable/generic forms built from
them. -/

/-- Scope-counter step of the spec: counters for `<>`, curly braces and
parentheses, clamped at zero on an unmatched closer. -/
def dstep : Nat × Nat × Nat → Char → Nat × Nat × Nat
  | (da, dc, dp), c =>
    if c = '<' then (da + 1, dc, dp)
    else if c = '>' then (da - 1, dc, dp)
    else if c = lbrace then (da, dc + 1, dp)
    else if c = rbrace then (da, dc - 1, dp)
    else if c = '(' then (da, dc, dp + 1)
    else if c = ')' then (da, dc, dp - 1)
    else (da, dc, dp)

/-- Split a string at the first separator (`,`) that is not inside an open
scope, starting from the given scope counters; `none` when every separator is
covered by a scope (or there is none). -/
def splitAtFirstPt : Nat × Nat × Nat → Str → Option (Str × Str)
  | _, [] => none
  | st, c :: cs =>
    if c = ',' ∧ st = (0, 0, 0) then some ([], cs)
    else (splitAtFirstPt (dstep st c) cs).map (fun p => (c :: p.1, p.2))

/-- Raw segments of the spec-side split (fuelled; each split consumes at least
the separator, so fuel above the length of the string is enough). -/
def specSegsF : Nat → Str → List Str
  | 0, s => [s]
  | f + 1, s =>
    match splitAtFirstPt (0, 0, 0) s with
    | some (seg, rest) => seg :: specSegsF f rest
    | none => [s]

/-- The delimiter-aware splitter as specified: trimmed, non-empty segments
split at top-level separators only. -/
def split_types_spec (s : Str) : List Str :=
  ((specSegsF (s.length + 1) s).map pyStrip).filter (fun p => p ≠ [])

/-- Variant A of the type normalizer with no containing-class context, as
exercised by the idempotence claim. -/
def mapA (t : Str) : Str := map_dotnet_to_python t none none

/-- Key of the i-th entry of the `aliases` table. -/
def aliasKey (i : Fin 16) : Str := (aliases.getD i.1 ([], [])).1

/-- Value of the i-th entry of the `aliases` table. -/
def aliasVal (i : Fin 16) : Str := (aliases.getD i.1 ([], [])).2

/-- Key of the i-th entry of the `base_map` table. -/
def baseKey (i : Fin 8) : Str := (base_map.getD i.1 ([], [])).1

/-- Value of the i-th entry of the `base_map` table. -/
def baseVal (i : Fin 8) : Str := (base_map.getD i.1 ([], [])).2

mutual
/-- Type spellings built from the alias table: the table entries themselves,
array forms `T[]`, nullable forms `Nullable{T}`, and brace-delimited generic
forms over the container-name table with at least one argument. -/
inductive AForm where
  | base : Fin 16 → AForm
  | arr : AForm → AForm
  | nul : AForm → AForm
  | gen : Fin 8 → AFormArgs → AForm
/-- Nonempty argument lists of a generic form. -/
inductive AFormArgs where
  | one : AForm → AFormArgs
  | cons : AForm → AFormArgs → AFormArgs
end

mutual
/-- The source spelling of a form (the input handed to the normalizer). -/
def renderA : AForm → Str
  | AForm.base i => aliasKey i
  | AForm.arr f => renderA f ++ str "[]"
  | AForm.nul f => str "Nullable\x7b" ++ renderA f ++ [rbrace]
  | AForm.gen b args => baseKey b ++ [lbrace] ++ renderArgs args ++ [rbrace]
/-- Comma-joined source spellings of generic arguments. -/
def renderArgs : AFormArgs → Str
  | AFormArgs.one f => renderA f
  | AFormArgs.cons f rest => renderA f ++ [','] ++ renderArgs rest
end

mutual
/-- The normalized label a form maps to. -/
def valA : AForm → Str
  | AForm.base i => aliasVal i
  | AForm.arr f => str "List[" ++ valA f ++ str "]"
  | AForm.nul f => str "Optional[" ++ valA f ++ str "]"
  | AForm.gen b args => baseVal b ++ str "[" ++ valArgs args ++ str "]"
/-- The `', '`-joined normalized labels of generic arguments. -/
def valArgs : AFormArgs → Str
  | AFormArgs.one f => valA f
  | AFormArgs.cons f rest => valA f ++ str ", " ++ valArgs rest
end

/-- Characters that can appear in a rendered form: no whitespace, no angle
brackets, no parentheses, no newline (so only the curly-brace counter of the
splitter can move while scanning one). -/
def okCh (c : Char) : Bool :=
  !(pyWS c) && c ≠ '<' && c ≠ '>' && c ≠ '(' && c ≠ ')' && c ≠ '\n'

/-- Characters that can appear in a normalized label: no braces, no `?`. -/
def okOut (c : Char) : Bool := c ≠ lbrace && c ≠ rbrace && c ≠ '?'

/-- Curly-brace balance scan used for the rendered forms: `some d'` is the
final depth when no unmatched closer and no top-level comma occurs. -/
def scanB : Nat → Str → Option Nat
  | d, [] => some d
  | d, c :: cs =>
    if c = lbrace then scanB (d + 1) cs
    else if c = rbrace then (if d = 0 then none else scanB (d - 1) cs)
    else if c = ',' then (if d = 0 then none else scanB d cs)
    else scanB d cs

/-- Edge check of a normalized label: nonempty, no whitespace at either end,
and the final character is neither `[` nor `?`. -/
def edgeOk (o : Str) : Bool :=
  match o.head?, o.reverse.head? with
  | some a, some b => !(pyWS a) && !(pyWS b) && b ≠ '[' && b ≠ '?'
  | _, _ => false

/-- Invariant of normalized labels: good edges, good characters, not an array
spelling, and the alias table either misses it or maps it to itself.  Labels
satisfying it are fixed points of Variant A. -/
def ValInvB (o : Str) : Bool :=
  edgeOk o && o.all okOut && !(endsW o (str "[]")) &&
    (match lookupL o aliases with
     | none => true
     | some v => v = o)

/-- The rendered generic arguments, as a list. -/
def rendersList : AFormArgs → List Str
  | AFormArgs.one f => [renderA f]
  | AFormArgs.cons f rest => renderA f :: rendersList rest

/-- The normalized generic arguments, as a list. -/
def valList : AFormArgs → List Str
  | AFormArgs.one f => [valA f]
  | AFormArgs.cons f rest => valA f :: valList rest

/-! ### Shared helper lemmas -/

theorem placeholders_length (n : Nat) : (placeholders n).length = n := by
  simp [placeholders]

theorem joinCommaSp_cons (a : Str) (l : List Str) :
    ∃ ps, joinCommaSp (a :: l) = a ++ ps := by
  cases l with
  | nil => exact ⟨[], by simp [joinCommaSp, List.intercalate]⟩
  | cons b bs =>
    refine ⟨str ", " ++ joinCommaSp (b :: bs), ?_⟩
    simp [joinCommaSp, List.intercalate, List.intersperse]

/-! ### Claim theorems (concrete ones) -/

/-- Claim C1: the full pipeline on the `ColorHSL.CreateFromLCH` page — metadata
identity parsing, C# sample parsing, type normalization and signature
assembly — emits exactly the specified line. -/
theorem c1_full_pipeline :
    process_page (some (str "M:Rhino.Display.ColorHSL.CreateFromLCH(Rhino.Display.ColorLCH)"))
      (some (str "public static ColorHSL CreateFromLCH( ColorLCH lch )")) =
    Except.ok (some (str "Rhino.Display.ColorHSL.CreateFromLCH(lch: Rhino.Display.ColorLCH) -> Rhino.Display.ColorHSL")) := by
  rfl

/-- Claim C2 (code bug): a page whose `Microsoft.Help.Id` content is
`M:Update(System.Int32)` — the method marker is present but the identity part
has no dot — makes `parse_help_id` raise `ValueError` (the tuple unpacking of
`left.rsplit('.', 1)`), and this happens outside the `try` of `process_file`,
so the exception escapes the per-page boundary instead of the page being
skipped. -/
theorem c2_malformed_page_aborts :
    process_page (some (str "M:Update(System.Int32)"))
      (some (str "public static void Update( int x )")) =
    Except.error "ValueError" := by
  rfl

/-- Claim C3, counterexample: Variant B is not idempotent on its own outputs:
`guid` maps to `System.Guid`, which maps to `Any`. -/
theorem c3_variantB_not_idempotent :
    rs_map_type (str "dotnet") (rs_map_type (str "dotnet") (str "guid")) ≠
      rs_map_type (str "dotnet") (str "guid") := by
  decide

/-- Claim C4, counterexample: the input `"static"` contains no parenthesis but
the parser returns `(None, None, [], True)`, not `(None, None, [], False)`. -/
theorem c4_no_paren_not_all_none :
    parse_csharp_signature (str "static") none ≠
      ((none, none, [], false) : Option Str × Option Str × List Str × Bool) := by
  decide

/-- Claim C6: the metadata/identity parser maps the constructor marker and the
empty parameter list as specified, and every input that does not start with
the method marker `M:` yields `(None, None, [])`. -/
theorem c6_parse_help_id :
    parse_help_id (str "M:Ns.Cls.#ctor(Ns.A,Ns.B)") =
      Except.ok (some (str "Ns.Cls"), some (str "#ctor"), [str "Ns.A", str "Ns.B"]) ∧
    parse_help_id (str "M:Ns.Cls.Foo()") =
      Except.ok (some (str "Ns.Cls"), some (str "Foo"), []) ∧
    ∀ s : Str, isPre (str "M:") s = false → parse_help_id s = Except.ok (none, none, []) := by
  refine ⟨by rfl, by rfl, ?_⟩
  intro s h
  simp [parse_help_id, h]

/-- Witness for the hypothesis of `c6_parse_help_id`: the claim applied to the
concrete non-method id `T:Ns.Cls`. -/
theorem c6_parse_help_id_witness :
    isPre (str "M:") (str "T:Ns.Cls") = false ∧
      parse_help_id (str "T:Ns.Cls") = Except.ok (none, none, []) :=
  ⟨by decide, c6_parse_help_id.2.2 (str "T:Ns.Cls") (by decide)⟩

/-- Claim C8, counterexample: a record that is non-static and not a
constructor (metadata member `Foo`, no sample-derived name) is emitted
without the synthetic `self` parameter. -/
theorem c8_instance_without_self :
    build_signature_line (str "Ns.Cls") (some (str "Foo")) [] none none [] false =
      str "Ns.Cls.Foo() -> None" ∧
    hasSub (str "self")
      (build_signature_line (str "Ns.Cls") (some (str "Foo")) [] none none [] false) = false := by
  exact ⟨by rfl, by decide⟩

/-- Claim C7: whenever the sample-derived name count differs from the
metadata-derived type count, the assembled line is the one built from the
positional placeholders `arg1 .. argN` with `N` the type count. -/
theorem c7_arity_reconciliation :
    ∀ (cf : Str) (mr rt mn : Option Str) (pts pn : List Str) (st : Bool),
      pn.length ≠ pts.length →
      build_signature_line cf mr pts rt mn pn st =
        build_signature_line cf mr pts rt mn (placeholders pts.length) st := by
  intro cf mr rt mn pts pn st h
  simp [build_signature_line, List.length_map, placeholders_length, h]

/-- Witness for the hypothesis of `c7_arity_reconciliation`: one name against
two types. -/
theorem c7_arity_reconciliation_witness :
    ([str "x"].length ≠ [str "System.Int32", str "bool"].length) ∧
      build_signature_line (str "Ns.C") (some (str "f")) [str "System.Int32", str "bool"]
        (some (str "void")) (some (str "f")) [str "x"] true =
      build_signature_line (str "Ns.C") (some (str "f")) [str "System.Int32", str "bool"]
        (some (str "void")) (some (str "f")) (placeholders 2) true :=
  ⟨by decide,
    c7_arity_reconciliation (str "Ns.C") (some (str "f")) (some (str "void")) (some (str "f"))
      [str "System.Int32", str "bool"] [str "x"] true (by decide)⟩

/-- Claim C10: in the free-text pipeline's assembly, a parameter marked
optional whose invocation gives no default and whose mapped type is neither
`Any` nor `None` nor already `Optional[...]` is emitted with the annotation
wrapped in `Optional[...]` and a synthetic `= None` default; a parameter
absent from the parameters table is annotated `Any` (optional treated as
false); and `build_typed_signature` renders every invocation parameter this
way. -/
theorem c10_optional_wrapping :
    (∀ (tbl : List (Str × Str × Bool)) (name ty : Str),
      lookupPT name tbl = some (ty, true) → ty ≠ str "Any" → ty ≠ str "None" →
      isPre (str "Optional[") ty = false →
      typed_item tbl (name, none) =
        name ++ str ": " ++ (str "Optional[" ++ ty ++ str "]") ++ str " = " ++ str "None") ∧
    (∀ (tbl : List (Str × Str × Bool)) (name : Str),
      lookupPT name tbl = none →
      typed_item tbl (name, none) = name ++ str ": " ++ str "Any") ∧
    (∀ (fn : Str) (ps : List (Str × Option Str)) (tbl : List (Str × Str × Bool)) (ret : Str),
      build_typed_signature fn ps tbl ret =
        str "rhinoscriptsyntax." ++ fn ++ str "(" ++
          joinCommaSp (ps.map (typed_item tbl)) ++ str ") -> " ++ ret) := by
  refine ⟨?_, ?_, ?_⟩
  · intro tbl name ty hlk hAny hNone hOpt
    simp [typed_item, hlk, hAny, hNone, hOpt]
  · intro tbl name hlk
    simp [typed_item, hlk]
  · intro fn ps tbl ret
    rfl

/-- Witness for the hypotheses of `c10_optional_wrapping`: a one-row table
with an optional point parameter, and a name absent from the table. -/
theorem c10_optional_wrapping_witness :
    (lookupPT (str "a") [(str "a", str "Rhino.Geometry.Point3d", true)] =
        some (str "Rhino.Geometry.Point3d", true) ∧
      typed_item [(str "a", str "Rhino.Geometry.Point3d", true)] (str "a", none) =
        str "a" ++ str ": " ++ (str "Optional[" ++ str "Rhino.Geometry.Point3d" ++ str "]") ++
          str " = " ++ str "None") ∧
    (lookupPT (str "b") [(str "a", str "Rhino.Geometry.Point3d", true)] = none ∧
      typed_item [(str "a", str "Rhino.Geometry.Point3d", true)] (str "b", none) =
        str "b" ++ str ": " ++ str "Any") :=
  ⟨⟨by decide,
      c10_optional_wrapping.1 [(str "a", str "Rhino.Geometry.Point3d", true)] (str "a")
        (str "Rhino.Geometry.Point3d") (by decide) (by decide) (by decide) (by decide)⟩,
    ⟨by decide,
      c10_optional_wrapping.2.1 [(str "a", str "Rhino.Geometry.Point3d", true)] (str "b")
        (by decide)⟩⟩

/-- Claim C8, amended: a constructor-identified record is always emitted under
`__init__` with `self` first and return label `None` regardless of any
recovered return type; a non-static, non-constructor record gets the
synthetic `self` parameter exactly when a sample-derived method name was
recovered (with no sample-derived name, no `self` is prepended, as
`c8_instance_without_self` shows). -/
theorem c8_amended :
    (∀ (cf : Str) (mr rt mn : Option Str) (pts pn : List Str) (st : Bool),
      bsl_is_ctor (bsl_container_simple cf) mr mn = true →
      ∃ ps, build_signature_line cf mr pts rt mn pn st =
        cf ++ str ".__init__(self" ++ ps ++ str ") -> None") ∧
    (∀ (cf : Str) (mr rt mn : Option Str) (pts pn : List Str),
      bsl_is_ctor (bsl_container_simple cf) mr mn = false →
      truthyS mn = true →
      ∃ ps, build_signature_line cf mr pts rt mn pn false =
        cf ++ str "." ++ bsl_method_name false mr mn ++ str "(self" ++ ps ++ str ") -> " ++
          bsl_return false rt cf (bsl_container_simple cf)) := by
  constructor
  · intro cf mr rt mn pts pn st h
    simp only [build_signature_line, h, bsl_method_name, bsl_return, if_true]
    simp only [decide_True, Bool.true_or]
    simp only [if_true]
    obtain ⟨ps, hps⟩ := joinCommaSp_cons (str "self")
      (List.zipWith (fun n a => n ++ str ": " ++ a)
        (if pn.length ≠ (List.map (fun t =>
            map_dotnet_to_python t (some cf) (bsl_container_simple cf)) pts).length then
          placeholders (List.map (fun t =>
            map_dotnet_to_python t (some cf) (bsl_container_simple cf)) pts).length
         else pn)
        (List.map (fun t => map_dotnet_to_python t (some cf) (bsl_container_simple cf)) pts))
    refine ⟨ps, ?_⟩
    rw [List.singleton_append, hps]
    have e1 : str ".__init__(self" = str "." ++ (str "__init__" ++ (str "(" ++ str "self")) := rfl
    have e2 : str ") -> None" = str ") -> " ++ str "None" := rfl
    rw [e1, e2]
    simp [List.append_assoc]
  · intro cf mr rt mn pts pn h hmn
    simp only [build_signature_line, h]
    simp only [Bool.not_false, Bool.true_and, hmn, Bool.or_true]
    simp only [if_true]
    obtain ⟨ps, hps⟩ := joinCommaSp_cons (str "self")
      (List.zipWith (fun n a => n ++ str ": " ++ a)
        (if pn.length ≠ (List.map (fun t =>
            map_dotnet_to_python t (some cf) (bsl_container_simple cf)) pts).length then
          placeholders (List.map (fun t =>
            map_dotnet_to_python t (some cf) (bsl_container_simple cf)) pts).length
         else pn)
        (List.map (fun t => map_dotnet_to_python t (some cf) (bsl_container_simple cf)) pts))
    refine ⟨ps, ?_⟩
    rw [List.singleton_append, hps]
    have e3 : str "(self" = str "(" ++ str "self" := rfl
    rw [e3]
    simp [List.append_assoc]

/-- Witness for the hypotheses of `c8_amended`: a constructor page and an
instance-method record with a recovered sample name. -/
theorem c8_amended_witness :
    (bsl_is_ctor (bsl_container_simple (str "Ns.Cls")) (some (str "#ctor")) none = true ∧
      ∃ ps, build_signature_line (str "Ns.Cls") (some (str "#ctor")) [] none none [] false =
        str "Ns.Cls" ++ str ".__init__(self" ++ ps ++ str ") -> None") ∧
    (bsl_is_ctor (bsl_container_simple (str "Ns.Cls")) (some (str "Bar")) (some (str "Bar")) = false ∧
      truthyS (some (str "Bar")) = true ∧
      ∃ ps, build_signature_line (str "Ns.Cls") (some (str "Bar")) [] none (some (str "Bar")) [] false =
        str "Ns.Cls" ++ str "." ++ bsl_method_name false (some (str "Bar")) (some (str "Bar")) ++
          str "(self" ++ ps ++ str ") -> " ++
          bsl_return false none (str "Ns.Cls") (bsl_container_simple (str "Ns.Cls"))) :=
  ⟨⟨by decide,
      c8_amended.1 (str "Ns.Cls") (some (str "#ctor")) none none [] [] false (by decide)⟩,
    ⟨by decide, by decide,
      c8_amended.2 (str "Ns.Cls") (some (str "Bar")) none (some (str "Bar")) [] []
        (by decide) (by decide)⟩⟩

/-! ### Character-membership lemmas for the whitespace helpers -/

theorem mem_trimLeft {c : Char} {s : Str} (h : c ∈ trimLeft s) : c ∈ s :=
  (List.dropWhile_sublist pyWS).subset h

theorem mem_trimRight {c : Char} {s : Str} (h : c ∈ trimRight s) : c ∈ s := by
  unfold trimRight at h
  rw [List.mem_reverse] at h
  have h2 := (List.dropWhile_sublist pyWS).subset h
  rwa [List.mem_reverse] at h2

theorem mem_pyStrip {c : Char} {s : Str} (h : c ∈ pyStrip s) : c ∈ s :=
  mem_trimLeft (mem_trimRight h)

theorem mem_splitWSAux {c : Char} :
    ∀ (s w t : Str), t ∈ splitWSAux s w → c ∈ t → c ∈ s ∨ c ∈ w := by
  intro s
  induction s with
  | nil =>
    intro w t ht hc
    simp only [splitWSAux] at ht
    by_cases hw : w = []
    · simp [hw] at ht
    · simp only [hw, if_false, List.mem_singleton] at ht
      subst ht
      right
      rwa [List.mem_reverse] at hc
  | cons a as ih =>
    intro w t ht hc
    simp only [splitWSAux] at ht
    by_cases ha : pyWS a
    · simp only [ha, if_true] at ht
      by_cases hw : w = []
      · simp only [hw, if_true] at ht
        rcases ih [] t ht hc with h | h
        · exact Or.inl (List.mem_cons_of_mem a h)
        · simp at h
      · simp only [hw, if_false, List.mem_cons] at ht
        rcases ht with ht | ht
        · subst ht
          right
          rwa [List.mem_reverse] at hc
        · rcases ih [] t ht hc with h | h
          · exact Or.inl (List.mem_cons_of_mem a h)
          · simp at h
    · simp only [ha, if_false] at ht
      rcases ih (a :: w) t ht hc with h | h
      · exact Or.inl (List.mem_cons_of_mem a h)
      · rcases List.mem_cons.mp h with h | h
        · exact Or.inl (by simp [h])
        · exact Or.inr h

theorem mem_intersperse_str {sep l' : Str} {ls : List Str} (h : l' ∈ ls.intersperse sep) :
    l' = sep ∨ l' ∈ ls := by
  induction ls with
  | nil => simp at h
  | cons a as ih =>
    cases as with
    | nil =>
      simp only [List.intersperse, List.mem_singleton] at h
      exact Or.inr (by simp [h])
    | cons b bs =>
      rw [show List.intersperse sep (a :: b :: bs) = a :: sep :: List.intersperse sep (b :: bs)
        from rfl] at h
      rcases List.mem_cons.mp h with h | h
      · exact Or.inr (by simp [h])
      · rcases List.mem_cons.mp h with h | h
        · exact Or.inl h
        · rcases ih h with h' | h'
          · exact Or.inl h'
          · exact Or.inr (List.mem_cons_of_mem a h')

theorem mem_joinSp {c : Char} {ts : List Str} (h : c ∈ joinSp ts) :
    c = ' ' ∨ ∃ t ∈ ts, c ∈ t := by
  unfold joinSp List.intercalate at h
  obtain ⟨l', hl', hc⟩ := List.mem_flatten.mp h
  rcases mem_intersperse_str hl' with h' | h'
  · subst h'
    left
    have e : str " " = [' '] := rfl
    rw [e, List.mem_singleton] at hc
    exact hc
  · exact Or.inr ⟨l', h', hc⟩

/-- Claim C4, amended: empty sample text yields `(None, None, [], False)`, and
sample text containing no parenthesis always yields an empty parameter-name
list (but, unlike the claim, the head tokens can still produce a method name,
a return type, and a true static flag, as `c4_no_paren_not_all_none` shows). -/
theorem c4_amended :
    (∀ cs : Option Str, parse_csharp_signature [] cs = (none, none, [], false)) ∧
    (∀ (s : Str) (cs : Option Str), hasChar '(' s = false → hasChar ')' s = false →
      (parse_csharp_signature s cs).2.2.1 = []) := by
  constructor
  · intro cs
    rfl
  · intro s cs hl hr
    by_cases hs : s = []
    · subst hs
      rfl
    · have hl' : '(' ∉ s := by simpa [hasChar] using hl
      have hr' : ')' ∉ s := by simpa [hasChar] using hr
      have h1 : hasChar ')' (pyStrip s) = false := by
        simp only [hasChar, decide_eq_false_iff_not]
        intro hm
        exact hr' (mem_pyStrip hm)
      have h3 : hasChar '(' (joinSp (splitWS (pyStrip s))) = false := by
        simp only [hasChar, decide_eq_false_iff_not]
        intro hm
        rcases mem_joinSp hm with h | ⟨t, ht, hc⟩
        · exact absurd h (by decide)
        · rcases mem_splitWSAux (pyStrip s) [] t ht hc with h | h
          · exact hl' (mem_pyStrip h)
          · simp at h
      simp only [parse_csharp_signature]
      rw [if_neg hs, h1]
      simp only [Bool.false_eq_true, if_false]
      rw [h3]
      simp only [Bool.false_eq_true, false_and, if_false]
      rfl

/-- Witness for the hypotheses of `c4_amended`: a head-only sample with no
parenthesis. -/
theorem c4_amended_witness :
    hasChar '(' (str "static int Foo") = false ∧ hasChar ')' (str "static int Foo") = false ∧
      (parse_csharp_signature (str "static int Foo") none).2.2.1 = [] :=
  ⟨by decide, by decide, c4_amended.2 (str "static int Foo") none (by decide) (by decide)⟩

/-! ### Refinement of `split_types_list` against the spec-side splitter -/

theorem splitTypesAux_step_proj (c : Char) (cs buf : Str) (da dc dp : Nat)
    (h : ¬ (c = ',' ∧ da = 0 ∧ dc = 0 ∧ dp = 0)) :
    splitTypesAux (c :: cs) buf da dc dp =
      splitTypesAux cs (c :: buf) (dstep (da, dc, dp) c).1 (dstep (da, dc, dp) c).2.1
        (dstep (da, dc, dp) c).2.2 := by
  by_cases h1 : c = '<'
  · subst h1; simp [splitTypesAux, dstep, lbrace, rbrace]
  · by_cases h2 : c = '>'
    · subst h2; simp [splitTypesAux, dstep, lbrace, rbrace]
    · by_cases h3 : c = lbrace
      · subst h3; simp [splitTypesAux, dstep, h1, h2, lbrace, rbrace]
      · by_cases h4 : c = rbrace
        · subst h4; simp [splitTypesAux, dstep, h1, h2, lbrace, rbrace]
        · by_cases h5 : c = '('
          · subst h5; simp [splitTypesAux, dstep, lbrace, rbrace]
          · by_cases h6 : c = ')'
            · subst h6; simp [splitTypesAux, dstep, lbrace, rbrace]
            · simp [splitTypesAux, dstep, h1, h2, h3, h4, h5, h6, h]

theorem splitTypesAux_step (c : Char) (cs buf : Str) (da dc dp da' dc' dp' : Nat)
    (hst : dstep (da, dc, dp) c = (da', dc', dp'))
    (h : ¬ (c = ',' ∧ da = 0 ∧ dc = 0 ∧ dp = 0)) :
    splitTypesAux (c :: cs) buf da dc dp = splitTypesAux cs (c :: buf) da' dc' dp' := by
  have base := splitTypesAux_step_proj c cs buf da dc dp h
  rw [hst] at base
  simpa using base

theorem splitTypesAux_comma (cs buf : Str) :
    splitTypesAux (',' :: cs) buf 0 0 0 = pyStrip buf.reverse :: splitTypesAux cs [] 0 0 0 := by
  simp [splitTypesAux, lbrace, rbrace]

theorem splitAtFirstPt_cons (c : Char) (cs : Str) (da dc dp da' dc' dp' : Nat)
    (hst : dstep (da, dc, dp) c = (da', dc', dp'))
    (h : ¬ (c = ',' ∧ da = 0 ∧ dc = 0 ∧ dp = 0)) :
    splitAtFirstPt (da, dc, dp) (c :: cs) =
      (splitAtFirstPt (da', dc', dp') cs).map (fun p => (c :: p.1, p.2)) := by
  simp only [splitAtFirstPt]
  rw [hst, if_neg]
  simpa [Prod.ext_iff, and_assoc] using h

theorem splitAtFirstPt_length :
    ∀ (s : Str) (st : Nat × Nat × Nat) (seg rest : Str),
      splitAtFirstPt st s = some (seg, rest) → rest.length < s.length := by
  intro s
  induction s with
  | nil => intro st seg rest h; simp [splitAtFirstPt] at h
  | cons c cs ih =>
    intro st seg rest h
    simp only [splitAtFirstPt] at h
    by_cases hc : c = ',' ∧ st = (0, 0, 0)
    · rw [if_pos hc] at h
      have h2 : rest = cs := by
        injection h with h'
        rw [Prod.mk.injEq] at h'
        exact h'.2.symm
      subst h2
      simp
    · rw [if_neg hc] at h
      cases hsp : splitAtFirstPt (dstep st c) cs with
      | none => rw [hsp] at h; simp at h
      | some p =>
        rw [hsp] at h
        simp only [Option.map_some', Option.some.injEq, Prod.mk.injEq] at h
        have h3 := ih (dstep st c) p.1 p.2 (by rw [hsp])
        have h4 : rest = p.2 := h.2.symm
        subst h4
        exact Nat.lt_trans h3 (Nat.lt_succ_self _)

theorem split_types_aux_none :
    ∀ (s buf : Str) (da dc dp : Nat),
      splitAtFirstPt (da, dc, dp) s = none →
      splitTypesAux s buf da dc dp =
        (if buf.reverse ++ s = [] then [] else [pyStrip (buf.reverse ++ s)]) := by
  intro s
  induction s with
  | nil =>
    intro buf da dc dp _h
    simp only [splitTypesAux, List.append_nil]
    by_cases hb : buf = []
    · subst hb; simp
    · rw [if_neg hb, if_neg (by simpa using hb)]
  | cons c cs ih =>
    intro buf da dc dp h
    by_cases hc : c = ',' ∧ da = 0 ∧ dc = 0 ∧ dp = 0
    · exfalso
      obtain ⟨hc1, hc2, hc3, hc4⟩ := hc
      subst hc1; subst hc2; subst hc3; subst hc4
      simp [splitAtFirstPt] at h
    · rcases hstep : dstep (da, dc, dp) c with ⟨da', dc', dp'⟩
      rw [splitTypesAux_step c cs buf da dc dp da' dc' dp' hstep hc]
      rw [splitAtFirstPt_cons c cs da dc dp da' dc' dp' hstep hc] at h
      have h2 : splitAtFirstPt (da', dc', dp') cs = none := by
        cases hsp : splitAtFirstPt (da', dc', dp') cs with
        | none => rfl
        | some p => rw [hsp] at h; simp at h
      rw [ih (c :: buf) _ _ _ h2]
      rw [show (c :: buf).reverse ++ cs = buf.reverse ++ (c :: cs) by
        simp [List.reverse_cons, List.append_assoc]]

theorem split_types_aux_some :
    ∀ (s buf seg rest : Str) (da dc dp : Nat),
      splitAtFirstPt (da, dc, dp) s = some (seg, rest) →
      splitTypesAux s buf da dc dp =
        pyStrip (buf.reverse ++ seg) :: splitTypesAux rest [] 0 0 0 := by
  intro s
  induction s with
  | nil => intro buf seg rest da dc dp h; simp [splitAtFirstPt] at h
  | cons c cs ih =>
    intro buf seg rest da dc dp h
    by_cases hc : c = ',' ∧ da = 0 ∧ dc = 0 ∧ dp = 0
    · obtain ⟨hc1, hc2, hc3, hc4⟩ := hc
      subst hc1; subst hc2; subst hc3; subst hc4
      simp only [splitAtFirstPt, if_pos (And.intro rfl rfl)] at h
      have hseg : seg = [] := by
        injection h with h'
        rw [Prod.mk.injEq] at h'
        exact h'.1.symm
      have hrest : rest = cs := by
        injection h with h'
        rw [Prod.mk.injEq] at h'
        exact h'.2.symm
      subst hseg; subst hrest
      rw [splitTypesAux_comma, List.append_nil]
    · rcases hstep : dstep (da, dc, dp) c with ⟨da', dc', dp'⟩
      rw [splitTypesAux_step c cs buf da dc dp da' dc' dp' hstep hc]
      rw [splitAtFirstPt_cons c cs da dc dp da' dc' dp' hstep hc] at h
      obtain ⟨p, hp, hpe⟩ : ∃ p, splitAtFirstPt (da', dc', dp') cs = some p ∧
          (c :: p.1, p.2) = (seg, rest) := by
        cases hsp : splitAtFirstPt (da', dc', dp') cs with
        | none => rw [hsp] at h; simp at h
        | some p =>
          rw [hsp] at h
          simp only [Option.map_some', Option.some.injEq] at h
          exact ⟨p, rfl, h⟩
      rw [Prod.mk.injEq] at hpe
      rw [ih (c :: buf) p.1 p.2 _ _ _ (by rw [hp])]
      rw [show (c :: buf).reverse ++ p.1 = buf.reverse ++ (c :: p.1) by
        simp [List.reverse_cons, List.append_assoc]]
      rw [hpe.1, hpe.2]

theorem specSegsF_irrel :
    ∀ (n m : Nat) (s : Str), s.length < n → s.length < m → specSegsF n s = specSegsF m s := by
  intro n
  induction n with
  | zero => intro m s hn _; exact absurd hn (Nat.not_lt_zero _)
  | succ n ih =>
    intro m s hn hm
    cases m with
    | zero => exact absurd hm (Nat.not_lt_zero _)
    | succ m =>
      cases hsp : splitAtFirstPt (0, 0, 0) s with
      | none => simp only [specSegsF, hsp]
      | some p =>
        have hl := splitAtFirstPt_length s (0, 0, 0) p.1 p.2 (by rw [hsp])
        simp only [specSegsF, hsp]
        rw [ih m p.2 (by omega) (by omega)]

theorem split_types_filter_eq :
    ∀ (n : Nat) (s : Str), s.length ≤ n →
      (splitTypesAux s [] 0 0 0).filter (fun p => p ≠ []) =
        ((specSegsF (s.length + 1) s).map pyStrip).filter (fun p => p ≠ []) := by
  intro n
  induction n with
  | zero =>
    intro s hs
    have hn : s = [] := List.eq_nil_of_length_eq_zero (Nat.le_zero.mp hs)
    subst hn
    rfl
  | succ n ih =>
    intro s hs
    cases hsp : splitAtFirstPt (0, 0, 0) s with
    | none =>
      rw [split_types_aux_none s [] 0 0 0 hsp]
      simp only [List.reverse_nil, List.nil_append]
      simp only [specSegsF, hsp]
      by_cases hnil : s = []
      · subst hnil; rfl
      · rw [if_neg hnil]
        simp
    | some p =>
      have hl := splitAtFirstPt_length s (0, 0, 0) p.1 p.2 (by rw [hsp])
      rw [split_types_aux_some s [] p.1 p.2 0 0 0 (by rw [hsp])]
      simp only [List.reverse_nil, List.nil_append]
      simp only [specSegsF, hsp]
      rw [specSegsF_irrel s.length (p.2.length + 1) p.2 hl (Nat.lt_succ_self _)]
      simp only [List.map_cons, List.filter_cons]
      rw [ih p.2 (by omega)]

/-- Claim C5: the delimiter-aware splitter returns exactly the ordered list of
trimmed, non-empty segments obtained by splitting at separators that are not
inside an open angle/curly/paren scope (counters clamped at zero, end of
string flushing the final segment), and in particular splitting
`Dict{K,V}, str` yields exactly `["Dict{K,V}", "str"]`. -/
theorem c5_delimiter_split :
    (∀ s : Str, split_types_list s = split_types_spec s) ∧
    split_types_list (str "Dict\x7bK,V\x7d, str") = [str "Dict\x7bK,V\x7d", str "str"] := by
  constructor
  · intro s
    exact split_types_filter_eq s.length s (Nat.le_refl _)
  · decide

/-! ### Length lemmas for the fuelled recursions -/

theorem isPre_length : ∀ pat s : Str, isPre pat s = true → pat.length ≤ s.length := by
  intro pat
  induction pat with
  | nil => intro s _; simp
  | cons a as ih =>
    intro s h
    cases s with
    | nil => simp [isPre] at h
    | cons b bs =>
      simp only [isPre, Bool.and_eq_true] at h
      simpa using ih bs h.2

theorem pyStrip_length (s : Str) : (pyStrip s).length ≤ s.length := by
  have h1 : (trimLeft s).length ≤ s.length := (List.dropWhile_sublist pyWS).length_le
  have h2 : (trimRight (trimLeft s)).length ≤ (trimLeft s).length := by
    unfold trimRight
    rw [List.length_reverse]
    have := (List.dropWhile_sublist (l := (trimLeft s).reverse) pyWS).length_le
    simpa using this
  exact Nat.le_trans h2 h1

theorem normL_length (s : Str) : (normL s).length ≤ s.length := by
  unfold normL
  rw [List.length_map]
  exact pyStrip_length s

theorem replaceChar_length (a b : Char) (s : Str) : (replaceChar a b s).length = s.length := by
  simp [replaceChar]

theorem splitFirstSub_some_length (pat : Str) :
    ∀ s b a : Str, splitFirstSub pat s = some (b, a) →
      b.length + pat.length + a.length = s.length := by
  intro s
  induction s with
  | nil =>
    intro b a h
    simp only [splitFirstSub] at h
    by_cases hp : isPre pat ([] : Str) = true
    · rw [if_pos hp] at h
      have hl := isPre_length pat [] hp
      simp at hl
      injection h with h'
      rw [Prod.mk.injEq] at h'
      simp [← h'.1, ← h'.2, hl]
    · rw [if_neg hp] at h
      simp at h
  | cons c cs ih =>
    intro b a h
    simp only [splitFirstSub] at h
    by_cases hp : isPre pat (c :: cs) = true
    · rw [if_pos hp] at h
      have hl := isPre_length pat (c :: cs) hp
      injection h with h'
      rw [Prod.mk.injEq] at h'
      have hb : b = [] := h'.1.symm
      have ha : a = (c :: cs).drop pat.length := h'.2.symm
      subst hb; subst ha
      simp only [List.length_nil, List.length_drop, Nat.zero_add]
      omega
    · rw [if_neg hp] at h
      cases hsp : splitFirstSub pat cs with
      | none => rw [hsp] at h; simp at h
      | some p =>
        rw [hsp] at h
        simp only [Option.map_some', Option.some.injEq, Prod.mk.injEq] at h
        have := ih p.1 p.2 (by rw [hsp])
        have hb : b = c :: p.1 := h.1.symm
        have ha : a = p.2 := h.2.symm
        subst hb; subst ha
        simp only [List.length_cons]
        omega

theorem splitFirst_some_length (c : Char) :
    ∀ s b a : Str, splitFirst c s = some (b, a) → b.length + 1 + a.length = s.length := by
  intro s
  induction s with
  | nil => intro b a h; simp [splitFirst] at h
  | cons x xs ih =>
    intro b a h
    simp only [splitFirst] at h
    by_cases hx : x = c
    · rw [if_pos hx] at h
      injection h with h'
      rw [Prod.mk.injEq] at h'
      have hb : b = [] := h'.1.symm
      have ha : a = xs := h'.2.symm
      subst hb; subst ha
      simp only [List.length_nil, List.length_cons]
      omega
    · rw [if_neg hx] at h
      cases hsp : splitFirst c xs with
      | none => rw [hsp] at h; simp at h
      | some p =>
        rw [hsp] at h
        simp only [Option.map_some', Option.some.injEq, Prod.mk.injEq] at h
        have := ih p.1 p.2 (by rw [hsp])
        have hb : b = x :: p.1 := h.1.symm
        have ha : a = p.2 := h.2.symm
        subst hb; subst ha
        simp only [List.length_cons]
        omega

theorem tupleOfMatch_length (inner : Str) (nb : Nat × Str)
    (h : tupleOfMatch inner = some nb) : nb.2.length < inner.length := by
  simp only [tupleOfMatch] at h
  by_cases hc : inner.takeWhile Char.isDigit ≠ [] ∧
      (inner.drop (inner.takeWhile Char.isDigit).length).takeWhile pyWS ≠ [] ∧
      (inner.drop (inner.takeWhile Char.isDigit).length).drop
        ((inner.drop (inner.takeWhile Char.isDigit).length).takeWhile pyWS).length ≠ [] ∧
      ((inner.drop (inner.takeWhile Char.isDigit).length).drop
        ((inner.drop (inner.takeWhile Char.isDigit).length).takeWhile pyWS).length).all wordNumChar
  · rw [if_pos hc] at h
    injection h with h'
    have hb : nb.2 = (inner.drop (inner.takeWhile Char.isDigit).length).drop
        ((inner.drop (inner.takeWhile Char.isDigit).length).takeWhile pyWS).length := by
      rw [← h']
    rw [hb]
    have h1 : 1 ≤ (inner.takeWhile Char.isDigit).length := by
      have := hc.1
      cases he : inner.takeWhile Char.isDigit with
      | nil => exact absurd he this
      | cons y ys => simp [he]
    have h2 : 1 ≤ ((inner.drop (inner.takeWhile Char.isDigit).length).takeWhile pyWS).length := by
      have := hc.2.1
      cases he : (inner.drop (inner.takeWhile Char.isDigit).length).takeWhile pyWS with
      | nil => exact absurd he this
      | cons y ys => simp [he]
    have h3 : (inner.takeWhile Char.isDigit).length ≤ inner.length :=
      (List.takeWhile_sublist Char.isDigit).length_le
    simp only [List.length_drop]
    omega
  · rw [if_neg hc] at h
    simp at h

theorem hasSub_cons (c : Char) (pat s : Str) (h : hasSub pat s = true) :
    hasSub pat (c :: s) = true := by
  simp only [hasSub, splitFirstSub] at h ⊢
  by_cases hp : isPre pat (c :: s) = true
  · rw [if_pos hp]; rfl
  · rw [if_neg hp]
    cases hsp : splitFirstSub pat s with
    | none => rw [hsp] at h; simp at h
    | some p => simp

theorem isPre_append_hasSub : ∀ (a pat s : Str), isPre (a ++ pat) s = true → hasSub pat s = true := by
  intro a
  induction a with
  | nil =>
    intro pat s h
    simp only [List.nil_append] at h
    cases s with
    | nil => simp [hasSub, splitFirstSub, h]
    | cons c cs => simp [hasSub, splitFirstSub, h]
  | cons x xs ih =>
    intro pat s h
    cases s with
    | nil => simp [isPre] at h
    | cons c cs =>
      simp only [List.cons_append, isPre, Bool.and_eq_true] at h
      exact hasSub_cons c pat cs (ih pat cs h.2)

theorem splitFirst_isSome_of_mem (c : Char) :
    ∀ s : Str, c ∈ s → ∃ p, splitFirst c s = some p := by
  intro s
  induction s with
  | nil => intro h; simp at h
  | cons x xs ih =>
    intro h
    simp only [splitFirst]
    by_cases hx : x = c
    · rw [if_pos hx]; exact ⟨([], xs), rfl⟩
    · rw [if_neg hx]
      rcases List.mem_cons.mp h with h' | h'
      · exact absurd h'.symm hx
      · obtain ⟨p, hp⟩ := ih h'
        exact ⟨(x :: p.1, p.2), by rw [hp]; rfl⟩

theorem rsFuel_irrel (style : Str) :
    ∀ (n : Nat), ∀ (m : Nat) (label : Str), label.length < n → label.length < m →
      rsFuel style n label = rsFuel style m label := by
  intro n
  induction n with
  | zero => intro m label hn _; exact absurd hn (Nat.not_lt_zero _)
  | succ n ih =>
    intro m label hn hm
    cases m with
    | zero => exact absurd hm (Nat.not_lt_zero _)
    | succ m =>
      simp only [rsFuel]
      by_cases h0 : normL label = []
      · rw [if_pos h0, if_pos h0]
      · rw [if_neg h0, if_neg h0]
        set t := replaceChar enDash '-' (normL label) with ht
        have htl : t.length ≤ label.length := by
          rw [ht, replaceChar_length]
          exact normL_length label
        have h4len : (str " or ").length = 4 := rfl
        have hoflen : (str " of ").length = 4 := rfl
        by_cases h1 : hasSub (str " or ") t = true
        · rw [if_pos h1, if_pos h1]
          cases hf : List.findSome? (fun p =>
              match lookupL p (rs_base_map style) with
              | some v => if v ≠ [] then some v else none
              | none => none)
              (((splitAllSub (str " or ") t).map pyStrip).filter (fun p => p ≠ [])) with
          | some v => simp only [hf]
          | none =>
            simp only [hf]
            obtain ⟨p, hp⟩ : ∃ p, splitFirstSub (str " or ") t = some p := by
              simpa only [hasSub, Option.isSome_iff_exists] using h1
            rw [hp]
            simp only [Option.getD_some]
            have hlen := splitFirstSub_some_length (str " or ") t p.1 p.2 (by rw [hp])
            rw [h4len] at hlen
            exact ih m p.1 (by omega) (by omega)
        · rw [if_neg h1, if_neg h1]
          by_cases h2 : (isPre (str "list of ") t || isPre (str "array of ") t) = true
          · rw [if_pos h2, if_pos h2]
            obtain ⟨p, hp⟩ : ∃ p, splitFirstSub (str " of ") t = some p := by
              rcases Bool.or_eq_true_iff.mp h2 with hone | hone
              · have e : str "list" ++ str " of " = str "list of " := rfl
                have := isPre_append_hasSub (str "list") (str " of ") t (by rw [e]; exact hone)
                simpa only [hasSub, Option.isSome_iff_exists] using this
              · have e : str "array" ++ str " of " = str "array of " := rfl
                have := isPre_append_hasSub (str "array") (str " of ") t (by rw [e]; exact hone)
                simpa only [hasSub, Option.isSome_iff_exists] using this
            rw [hp]
            simp only [Option.getD_some]
            have hlen := splitFirstSub_some_length (str " of ") t p.1 p.2 (by rw [hp])
            rw [hoflen] at hlen
            have hps : (pyStrip p.2).length ≤ p.2.length := pyStrip_length p.2
            rw [ih m (pyStrip p.2) (by omega) (by omega)]
          · rw [if_neg h2, if_neg h2]
            by_cases h3 : isPre (str "tuple of ") t = true
            · rw [if_pos h3, if_pos h3]
              obtain ⟨p, hp⟩ : ∃ p, splitFirstSub (str " of ") t = some p := by
                have e : str "tuple" ++ str " of " = str "tuple of " := rfl
                have := isPre_append_hasSub (str "tuple") (str " of ") t (by rw [e]; exact h3)
                simpa only [hasSub, Option.isSome_iff_exists] using this
              rw [hp]
              simp only [Option.getD_some]
              cases htm : tupleOfMatch (pyStrip p.2) with
              | none => simp only [htm]
              | some nb =>
                simp only [htm]
                have h5 := tupleOfMatch_length (pyStrip p.2) nb htm
                have hlen := splitFirstSub_some_length (str " of ") t p.1 p.2 (by rw [hp])
                rw [hoflen] at hlen
                have hps : (pyStrip p.2).length ≤ p.2.length := pyStrip_length p.2
                rw [ih m nb.2 (by omega) (by omega)]
            · rw [if_neg h3, if_neg h3]
              cases hlk : lookupL t (rs_base_map style) with
              | some v => simp only [hlk]
              | none =>
                simp only [hlk]
                by_cases h4 : hasChar ',' t = true
                · rw [if_pos h4, if_pos h4]
                  obtain ⟨p, hp⟩ : ∃ p, splitFirst ',' t = some p := by
                    apply splitFirst_isSome_of_mem
                    simpa [hasChar] using h4
                  rw [hp]
                  simp only [Option.getD_some]
                  have hlen := splitFirst_some_length ',' t p.1 p.2 (by rw [hp])
                  have hps : (pyStrip p.1).length ≤ p.1.length := pyStrip_length p.1
                  rw [ih m (pyStrip p.1) (by omega) (by omega)]
                · rw [if_neg h4, if_neg h4]

/-- Claim C9: Variant B maps a union label to the mapped label of the first
alternative that resolves in its base table; maps `list of X` to
`List[mapped X]` (so `list of point` maps to `List[` + point label + `]`);
maps unrecognized free text to the generic unknown label `Any`; and, being a
total function, never raises on any input. -/
theorem c9_variantB :
    (∀ (style label v : Str),
      normL label ≠ [] →
      hasSub (str " or ") (replaceChar enDash '-' (normL label)) = true →
      List.findSome? (fun p =>
          match lookupL p (rs_base_map style) with
          | some w => if w ≠ [] then some w else none
          | none => none)
        (((splitAllSub (str " or ") (replaceChar enDash '-' (normL label))).map pyStrip).filter
          (fun p => p ≠ [])) = some v →
      rs_map_type style label = v) ∧
    (∀ (style label : Str),
      hasSub (str " or ") (replaceChar enDash '-' (normL label)) = false →
      isPre (str "list of ") (replaceChar enDash '-' (normL label)) = true →
      rs_map_type style label =
        str "List[" ++ rs_map_type style (pyStrip (((splitFirstSub (str " of ")
          (replaceChar enDash '-' (normL label))).getD ([], [])).2)) ++ str "]") ∧
    rs_map_type (str "dotnet") (str "number or guid") = str "float" ∧
    rs_map_type (str "dotnet") (str "list of point") = str "List[Rhino.Geometry.Point3d]" ∧
    rs_map_type (str "dotnet") (str "widget") = str "Any" := by
  refine ⟨?_, ?_, by decide, by decide, by decide⟩
  · intro style label v h0 h1 hf
    simp only [rs_map_type, rsFuel]
    rw [if_neg h0, if_pos h1]
    simp only [hf]
  · intro style label h1 h2
    have h8 : 8 ≤ (replaceChar enDash '-' (normL label)).length := by
      have := isPre_length (str "list of ") _ h2
      simpa using this
    have h0 : normL label ≠ [] := by
      intro he
      rw [he] at h8
      simp [replaceChar] at h8
    obtain ⟨p, hp⟩ : ∃ p, splitFirstSub (str " of ") (replaceChar enDash '-' (normL label)) =
        some p := by
      have e : str "list" ++ str " of " = str "list of " := rfl
      have := isPre_append_hasSub (str "list") (str " of ") _ (by rw [e]; exact h2)
      simpa only [hasSub, Option.isSome_iff_exists] using this
    have hlen := splitFirstSub_some_length (str " of ") _ p.1 p.2 (by rw [hp])
    rw [show (str " of ").length = 4 from rfl] at hlen
    have htl : (replaceChar enDash '-' (normL label)).length ≤ label.length := by
      rw [replaceChar_length]
      exact normL_length label
    have hps := pyStrip_length p.2
    rw [hp]
    simp only [Option.getD_some]
    have hr : rs_map_type style (pyStrip p.2) = rsFuel style label.length (pyStrip p.2) := by
      show rsFuel style ((pyStrip p.2).length + 1) (pyStrip p.2) = _
      exact (rsFuel_irrel style label.length ((pyStrip p.2).length + 1) (pyStrip p.2)
        (by omega) (by omega)).symm
    rw [hr]
    show rsFuel style (label.length + 1) label = _
    simp only [rsFuel]
    rw [if_neg h0, if_neg (by simp [h1]), if_pos (by simp [h2])]
    rw [hp]
    simp only [Option.getD_some]

/-- Witness for the hypotheses of `c9_variantB`: the union `number or guid`
(first alternative resolves to `float`) and the plural phrase `list of point`. -/
theorem c9_variantB_witness :
    (normL (str "number or guid") ≠ [] ∧
      hasSub (str " or ") (replaceChar enDash '-' (normL (str "number or guid"))) = true ∧
      List.findSome? (fun p =>
          match lookupL p (rs_base_map (str "dotnet")) with
          | some w => if w ≠ [] then some w else none
          | none => none)
        (((splitAllSub (str " or ") (replaceChar enDash '-' (normL (str "number or guid")))).map
          pyStrip).filter (fun p => p ≠ [])) = some (str "float") ∧
      rs_map_type (str "dotnet") (str "number or guid") = str "float") ∧
    (hasSub (str " or ") (replaceChar enDash '-' (normL (str "list of point"))) = false ∧
      isPre (str "list of ") (replaceChar enDash '-' (normL (str "list of point"))) = true ∧
      rs_map_type (str "dotnet") (str "list of point") =
        str "List[" ++ rs_map_type (str "dotnet") (pyStrip (((splitFirstSub (str " of ")
          (replaceChar enDash '-' (normL (str "list of point")))).getD ([], [])).2)) ++ str "]") :=
  ⟨⟨by decide, by decide, by decide,
      c9_variantB.1 (str "dotnet") (str "number or guid") (str "float") (by decide) (by decide)
        (by decide)⟩,
    ⟨by decide, by decide,
      c9_variantB.2.1 (str "dotnet") (str "list of point") (by decide) (by decide)⟩⟩

/-! ### Fuel irrelevance for Variant A -/

theorem endsW_length {s pat : Str} (h : endsW s pat = true) : pat.length ≤ s.length := by
  have := isPre_length pat.reverse s.reverse h
  simpa using this

theorem dropR_length (n : Nat) (s : Str) : (dropR n s).length = s.length - n := by
  simp only [dropR, List.length_take]
  omega

theorem nullableInner_length {t m : Str} (h : nullableInner t = some m) :
    m.length < t.length := by
  simp only [nullableInner] at h
  by_cases h1 : isPre (str "System.Nullable\x7b") t = true
  · rw [if_pos h1] at h
    have hl := isPre_length _ _ h1
    simp only [nullCheckBody] at h
    by_cases h2 : endsW (t.drop 16) [rbrace] = true ∧ 2 ≤ (t.drop 16).length ∧
        hasChar '\n' (dropR 1 (t.drop 16)) = false
    · rw [if_pos h2] at h
      injection h with h'
      subst h'
      have := h2.2.1
      rw [dropR_length, List.length_drop]
      rw [List.length_drop] at this
      have h16 : (str "System.Nullable\x7b").length = 16 := rfl
      rw [h16] at hl
      omega
    · rw [if_neg h2] at h
      simp at h
  · rw [if_neg h1] at h
    by_cases h1' : isPre (str "Nullable\x7b") t = true
    · rw [if_pos h1'] at h
      have hl := isPre_length _ _ h1'
      simp only [nullCheckBody] at h
      by_cases h2 : endsW (t.drop 9) [rbrace] = true ∧ 2 ≤ (t.drop 9).length ∧
          hasChar '\n' (dropR 1 (t.drop 9)) = false
      · rw [if_pos h2] at h
        injection h with h'
        subst h'
        have := h2.2.1
        rw [dropR_length, List.length_drop]
        rw [List.length_drop] at this
        have h9 : (str "Nullable\x7b").length = 9 := rfl
        rw [h9] at hl
        omega
      · rw [if_neg h2] at h
        simp at h
    · rw [if_neg h1'] at h
      simp at h

theorem genericMatch_length {t : Str} {bi : Str × Str} (h : genericMatch t = some bi) :
    bi.2.length < t.length ∧ bi.2 ≠ [] := by
  simp only [genericMatch] at h
  by_cases hc : t.takeWhile isWordDot ≠ [] ∧
      isPre [lbrace] (t.drop (t.takeWhile isWordDot).length) = true ∧
      endsW t [rbrace] = true ∧
      dropR 1 ((t.drop (t.takeWhile isWordDot).length).drop 1) ≠ [] ∧
      hasChar '\n' (dropR 1 ((t.drop (t.takeWhile isWordDot).length).drop 1)) = false
  · rw [if_pos hc] at h
    injection h with h'
    have hi : bi.2 = dropR 1 ((t.drop (t.takeWhile isWordDot).length).drop 1) := by
      rw [← h']
    constructor
    · rw [hi, dropR_length, List.length_drop, List.length_drop]
      have hb1 : 1 ≤ (t.takeWhile isWordDot).length := by
        cases he : t.takeWhile isWordDot with
        | nil => exact absurd he hc.1
        | cons y ys => simp [he]
      have ht1 : 1 ≤ t.length := by
        cases ht : t with
        | nil =>
          exfalso
          rw [ht] at hc
          simp [List.takeWhile] at hc
        | cons y ys => simp [ht]
      omega
    · rw [hi]; exact hc.2.2.2.1
  · rw [if_neg hc] at h
    simp at h

theorem splitTypesAux_part_length :
    ∀ (s buf : Str) (da dc dp : Nat) (p : Str),
      p ∈ splitTypesAux s buf da dc dp → p.length ≤ s.length + buf.length := by
  intro s
  induction s with
  | nil =>
    intro buf da dc dp p hp
    simp only [splitTypesAux] at hp
    by_cases hb : buf = []
    · simp [hb] at hp
    · simp only [hb, if_false, List.mem_singleton] at hp
      subst hp
      have h1 := pyStrip_length buf.reverse
      simpa using h1
  | cons c cs ih =>
    intro buf da dc dp p hp
    by_cases hc : c = ',' ∧ da = 0 ∧ dc = 0 ∧ dp = 0
    · obtain ⟨hc1, hc2, hc3, hc4⟩ := hc
      subst hc1; subst hc2; subst hc3; subst hc4
      rw [splitTypesAux_comma] at hp
      rcases List.mem_cons.mp hp with hp | hp
      · subst hp
        have h1 := pyStrip_length buf.reverse
        simp only [List.length_cons]
        simp only [List.length_reverse] at h1
        omega
      · have := ih [] 0 0 0 p hp
        simp only [List.length_cons]
        simp only [List.length_nil] at this
        omega
    · rcases hstep : dstep (da, dc, dp) c with ⟨da', dc', dp'⟩
      rw [splitTypesAux_step c cs buf da dc dp da' dc' dp' hstep hc] at hp
      have := ih (c :: buf) da' dc' dp' p hp
      simp only [List.length_cons] at this ⊢
      omega

theorem split_types_part_length {s p : Str} (hp : p ∈ split_types_list s) :
    p.length ≤ s.length := by
  have hm : p ∈ splitTypesAux s [] 0 0 0 := List.mem_of_mem_filter hp
  have := splitTypesAux_part_length s [] 0 0 0 p hm
  simpa using this

theorem mapFuel_irrel :
    ∀ (n : Nat), ∀ (m : Nat) (t0 : Str) (cf cs : Option Str), t0.length < n → t0.length < m →
      mapFuel n t0 cf cs = mapFuel m t0 cf cs := by
  intro n
  induction n with
  | zero => intro m t0 cf cs hn _; exact absurd hn (Nat.not_lt_zero _)
  | succ n ih =>
    intro m t0 cf cs hn hm
    cases m with
    | zero => exact absurd hm (Nat.not_lt_zero _)
    | succ m =>
      simp only [mapFuel]
      have htl : (pyStrip t0).length ≤ t0.length := pyStrip_length t0
      by_cases h1 : endsW (pyStrip t0) (str "[]") = true
      · rw [if_pos h1, if_pos h1]
        have h2 := endsW_length h1
        rw [show (str "[]").length = 2 from rfl] at h2
        have h3 := pyStrip_length (dropR 2 (pyStrip t0))
        rw [dropR_length] at h3
        rw [ih m (pyStrip (dropR 2 (pyStrip t0))) cf cs (by omega) (by omega)]
      · rw [if_neg h1, if_neg h1]
        cases hN : nullableInner (pyStrip t0) with
        | some mm =>
          simp only [hN]
          have h2 := nullableInner_length hN
          have h3 := pyStrip_length mm
          rw [ih m (pyStrip mm) cf cs (by omega) (by omega)]
        | none =>
          simp only [hN]
          by_cases h3 : endsW (pyStrip t0) (str "?") = true ∧
              ¬ endsW (pyStrip t0) (str "??") = true
          · rw [if_pos h3, if_pos h3]
            have h4 := endsW_length h3.1
            rw [show (str "?").length = 1 from rfl] at h4
            have h5 := dropR_length 1 (pyStrip t0)
            rw [ih m (dropR 1 (pyStrip t0)) cf cs (by omega) (by omega)]
          · rw [if_neg h3, if_neg h3]
            cases hG : genericMatch (pyStrip t0) with
            | some bi =>
              simp only [hG]
              have h6 := genericMatch_length hG
              have h7 : (split_types_list bi.2).map (fun p => mapFuel n p cf cs) =
                  (split_types_list bi.2).map (fun p => mapFuel m p cf cs) := by
                apply List.map_congr_left
                intro p hp
                have h8 := split_types_part_length hp
                exact ih m p cf cs (by omega) (by omega)
              rw [h7]
            | none =>
              simp only [hG]

/-! ### Invariants of the rendered forms -/

theorem scanB_append : ∀ (a b : Str) (d : Nat),
    scanB d (a ++ b) = (scanB d a).bind (fun d2 => scanB d2 b) := by
  intro a
  induction a with
  | nil => intro b d; simp [scanB]
  | cons c cs ih =>
    intro b d
    by_cases h1 : c = lbrace
    · subst h1
      simp only [List.cons_append, scanB, if_true]
      exact ih b (d + 1)
    · by_cases h2 : c = rbrace
      · subst h2
        simp only [List.cons_append, scanB, h1, if_false, if_true]
        by_cases hd : d = 0
        · simp [hd]
        · simp only [hd, if_false]
          exact ih b (d - 1)
      · by_cases h3 : c = ','
        · subst h3
          simp only [List.cons_append, scanB, h1, h2, if_false, if_true]
          by_cases hd : d = 0
          · simp [hd]
          · simp only [hd, if_false]
            exact ih b d
        · simp only [List.cons_append, scanB, h1, h2, h3, if_false]
          exact ih b d

theorem scanB_no_special : ∀ (r : Str),
    r.all (fun c => c ≠ lbrace && c ≠ rbrace && c ≠ ',') = true → ∀ d, scanB d r = some d := by
  intro r
  induction r with
  | nil => intro _ d; rfl
  | cons c cs ih =>
    intro h d
    simp only [List.all_cons, Bool.and_eq_true, decide_eq_true_eq] at h
    simp only [scanB, h.1.1, h.1.2, if_false]
    exact ih (by simpa using h.2) d

theorem scanB_lbrace (d : Nat) : scanB d [lbrace] = some (d + 1) := by
  simp [scanB]

theorem scanB_rbrace (d : Nat) : scanB (d + 1) [rbrace] = some d := by
  simp [scanB, lbrace, rbrace]

theorem scanB_nullable_pre (d : Nat) : scanB d (str "Nullable\x7b") = some (d + 1) := by
  simp [scanB, str, lbrace, rbrace]

mutual
theorem renInv_form : (f : AForm) →
    renderA f ≠ [] ∧ ((renderA f).all okCh = true) ∧ (∀ d, scanB d (renderA f) = some d)
  | AForm.base i => by
    refine ⟨(by decide : ∀ j : Fin 16, aliasKey j ≠ []) i,
      (by decide : ∀ j : Fin 16, (aliasKey j).all okCh = true) i, ?_⟩
    intro d
    exact scanB_no_special _
      ((by decide : ∀ j : Fin 16,
        (aliasKey j).all (fun c => c ≠ lbrace && c ≠ rbrace && c ≠ ',') = true) i) d
  | AForm.arr f => by
    obtain ⟨h1, h2, h3⟩ := renInv_form f
    refine ⟨?_, ?_, ?_⟩
    · simp only [renderA]
      intro he
      exact absurd (List.append_eq_nil.mp he).2 (by decide)
    · simp only [renderA, List.all_append, h2, Bool.true_and]
      decide
    · intro d
      simp only [renderA]
      rw [scanB_append, h3 d]
      simp only [Option.some_bind]
      exact scanB_no_special (str "[]") (by decide) d
  | AForm.nul f => by
    obtain ⟨h1, h2, h3⟩ := renInv_form f
    refine ⟨?_, ?_, ?_⟩
    · simp only [renderA]
      intro he
      exact absurd (List.append_eq_nil.mp he).2 (by decide)
    · simp only [renderA, List.append_assoc, List.all_append, h2, Bool.true_and, Bool.and_true]
      decide
    · intro d
      simp only [renderA, List.append_assoc]
      rw [scanB_append, scanB_nullable_pre d]
      simp only [Option.some_bind]
      rw [scanB_append, h3 (d + 1)]
      simp only [Option.some_bind]
      exact scanB_rbrace d
  | AForm.gen b args => by
    obtain ⟨g1, g2, g3⟩ := renInv_args args
    refine ⟨?_, ?_, ?_⟩
    · simp only [renderA]
      intro he
      exact absurd (List.append_eq_nil.mp he).2 (by decide)
    · simp only [renderA, List.append_assoc, List.all_append, g2, Bool.true_and, Bool.and_true]
      revert b
      decide
    · intro d
      simp only [renderA, List.append_assoc]
      rw [scanB_append,
        scanB_no_special _ ((by decide : ∀ j : Fin 8,
          (baseKey j).all (fun c => c ≠ lbrace && c ≠ rbrace && c ≠ ',') = true) b) d]
      simp only [Option.some_bind]
      rw [scanB_append, scanB_lbrace d]
      simp only [Option.some_bind]
      rw [scanB_append, g3 d]
      simp only [Option.some_bind]
      exact scanB_rbrace d
theorem renInv_args : (args : AFormArgs) →
    renderArgs args ≠ [] ∧ ((renderArgs args).all okCh = true) ∧
      (∀ d, scanB (d + 1) (renderArgs args) = some (d + 1))
  | AFormArgs.one f => by
    obtain ⟨h1, h2, h3⟩ := renInv_form f
    exact ⟨h1, h2, fun d => h3 (d + 1)⟩
  | AFormArgs.cons f rest => by
    obtain ⟨h1, h2, h3⟩ := renInv_form f
    obtain ⟨g1, g2, g3⟩ := renInv_args rest
    refine ⟨?_, ?_, ?_⟩
    · simp only [renderArgs]
      intro he
      exact absurd (List.append_eq_nil.mp he).2 g1
    · simp only [renderArgs, List.append_assoc, List.all_append, h2, g2, Bool.true_and,
        Bool.and_true]
      decide
    · intro d
      simp only [renderArgs, List.append_assoc]
      rw [scanB_append, h3 (d + 1)]
      simp only [Option.some_bind]
      rw [scanB_append]
      have hcomma : scanB (d + 1) [','] = some (d + 1) := by
        simp [scanB, lbrace, rbrace]
      rw [hcomma]
      simp only [Option.some_bind]
      exact g3 d
end

/-! ### Facts about normalized labels -/

theorem isPre_iff_pfx : ∀ (p s : Str), isPre p s = true ↔ p <+: s := by
  intro p
  induction p with
  | nil => intro s; simp [isPre]
  | cons a as ih =>
    intro s
    cases s with
    | nil => simp [isPre]
    | cons b bs =>
      simp only [isPre, Bool.and_eq_true, decide_eq_true_eq, List.cons_prefix_cons]
      constructor
      · rintro ⟨h1, h2⟩
        exact ⟨h1, (ih bs).mp h2⟩
      · rintro ⟨h1, h2⟩
        exact ⟨h1, (ih bs).mpr h2⟩

theorem isPre_subset {p s : Str} (h : isPre p s = true) : ∀ c ∈ p, c ∈ s :=
  fun _c hc => ((isPre_iff_pfx p s).mp h).subset hc

theorem isPre_append_self (p x : Str) : isPre p (p ++ x) = true :=
  (isPre_iff_pfx p (p ++ x)).mpr (List.prefix_append p x)

theorem isPre_append_left : ∀ (p a b : Str), p.length ≤ a.length →
    isPre p (a ++ b) = isPre p a := by
  intro p
  induction p with
  | nil => intro a b _; simp [isPre]
  | cons x xs ih =>
    intro a b h
    cases a with
    | nil => simp at h
    | cons y ys =>
      simp only [List.cons_append, isPre, List.append_eq]
      rw [ih ys b (by simpa using h)]

theorem edgeOk_dest {o : Str} (h : edgeOk o = true) :
    ∃ a b, o.head? = some a ∧ o.reverse.head? = some b ∧ pyWS a = false ∧ pyWS b = false ∧
      b ≠ '[' ∧ b ≠ '?' := by
  unfold edgeOk at h
  cases ho : o.head? with
  | none => rw [ho] at h; simp at h
  | some a =>
    cases hr : o.reverse.head? with
    | none => rw [ho, hr] at h; simp at h
    | some b =>
      rw [ho, hr] at h
      simp only [Bool.and_eq_true, Bool.not_eq_true', decide_eq_true_eq] at h
      exact ⟨a, b, rfl, rfl, h.1.1.1, h.1.1.2, h.1.2, h.2⟩

theorem edgeOk_shape (x y : Char) (mid : Str) (hx : pyWS x = false) (hy : pyWS y = false)
    (hy1 : y ≠ '[') (hy2 : y ≠ '?') : edgeOk ((x :: mid) ++ [y]) = true := by
  have h1 : ((x :: mid) ++ [y]).head? = some x := by simp
  have h2 : ((x :: mid) ++ [y]).reverse.head? = some y := by
    simp [List.reverse_append]
  unfold edgeOk
  rw [h1, h2]
  simp [hx, hy, hy1, hy2]

theorem edgeOk_concat (v mid w : Str) (hv : edgeOk v = true) (hw : edgeOk w = true) :
    edgeOk ((v ++ mid) ++ w) = true := by
  obtain ⟨a, _b, ha, _, hwa, _, _, _⟩ := edgeOk_dest hv
  obtain ⟨_a2, b, _, hb, _, hwb, hb1, hb2⟩ := edgeOk_dest hw
  have h1 : ((v ++ mid) ++ w).head? = some a := by
    cases v with
    | nil => simp at ha
    | cons c cs =>
      simp only [List.head?_cons, Option.some.injEq] at ha
      simp [ha]
  have h2 : ((v ++ mid) ++ w).reverse.head? = some b := by
    rw [List.reverse_append]
    cases hwre : w.reverse with
    | nil => rw [hwre] at hb; simp at hb
    | cons c cs =>
      rw [hwre] at hb
      simp only [List.head?_cons, Option.some.injEq] at hb
      simp [hwre, hb]
  unfold edgeOk
  rw [h1, h2]
  simp [hwa, hwb, hb1, hb2]

theorem pyStrip_eq_self_of_edgeOk {o : Str} (h : edgeOk o = true) : pyStrip o = o := by
  obtain ⟨a, b, ha, hb, hwa, hwb, _, _⟩ := edgeOk_dest h
  have h1 : trimLeft o = o := by
    cases o with
    | nil => rfl
    | cons c cs =>
      simp only [List.head?_cons, Option.some.injEq] at ha
      subst ha
      simp [trimLeft, List.dropWhile_cons, hwa]
  have h2 : trimRight o = o := by
    unfold trimRight
    cases hor : o.reverse with
    | nil =>
      simp only [hor, List.dropWhile_nil, List.reverse_nil]
      have := congrArg List.reverse hor
      simpa using this.symm
    | cons c cs =>
      rw [hor] at hb
      simp only [List.head?_cons, Option.some.injEq] at hb
      subst hb
      rw [List.dropWhile_cons]
      simp only [hwb, if_false]
      have := congrArg List.reverse hor
      simpa using this.symm
  rw [pyStrip, h1, h2]

theorem endsW_singleton_false {o : Str} {b y : Char} (hb : o.reverse.head? = some b)
    (hne : b ≠ y) : endsW o [y] = false := by
  unfold endsW
  cases hor : o.reverse with
  | nil => rw [hor] at hb; simp at hb
  | cons c cs =>
    rw [hor] at hb
    simp only [List.head?_cons, Option.some.injEq] at hb
    subst hb
    simp only [List.reverse_singleton, isPre]
    simp [Ne.symm hne]

theorem endsW_sq_false (A v : Str) (c : Char) (hv : v.reverse.head? = some c)
    (hc : c ≠ '[') : endsW ((A ++ v) ++ [']']) (str "[]") = false := by
  unfold endsW
  have he : (str "[]").reverse = [']', '['] := rfl
  rw [he, List.reverse_append, List.reverse_append]
  cases hvr : v.reverse with
  | nil => rw [hvr] at hv; simp at hv
  | cons d ds =>
    rw [hvr] at hv
    simp only [List.head?_cons, Option.some.injEq] at hv
    subst hv
    simp only [List.reverse_singleton, List.singleton_append, List.cons_append, isPre]
    simp [Ne.symm hc]

theorem endsW_append_ge2 (A w : Str) (h2 : 2 ≤ w.length) :
    endsW (A ++ w) (str "[]") = endsW w (str "[]") := by
  unfold endsW
  rw [List.reverse_append]
  exact isPre_append_left _ _ _ (by simpa using h2)

theorem lookupL_aliases_none {o : Str}
    (hc : '[' ∈ o ∨ ',' ∈ o ∨ ' ' ∈ o) : lookupL o aliases = none := by
  unfold lookupL
  cases hk : aliases.find? (fun kv => kv.1 = o) with
  | none => rfl
  | some kv =>
    exfalso
    have hmem := List.mem_of_find?_eq_some hk
    have hpred := List.find?_some hk
    simp only [decide_eq_true_eq] at hpred
    subst hpred
    revert hmem
    have : ∀ kv2 ∈ aliases, ¬ ('[' ∈ kv2.1 ∨ ',' ∈ kv2.1 ∨ ' ' ∈ kv2.1) := by decide
    intro hmem
    exact this kv hmem hc

theorem not_mem_of_all_okOut {o : Str} (h : o.all okOut = true) : lbrace ∉ o := by
  intro hm
  have := List.all_eq_true.mp h lbrace hm
  simp [okOut] at this

theorem nullableInner_none_of_no_brace {o : Str} (h : lbrace ∉ o) :
    nullableInner o = none := by
  unfold nullableInner
  have h1 : isPre (str "System.Nullable\x7b") o = false := by
    by_contra hb
    have hb' : isPre (str "System.Nullable\x7b") o = true := by
      cases hx : isPre (str "System.Nullable\x7b") o
      · exact absurd hx hb
      · rfl
    exact h (isPre_subset hb' lbrace (by decide))
  have h2 : isPre (str "Nullable\x7b") o = false := by
    by_contra hb
    have hb' : isPre (str "Nullable\x7b") o = true := by
      cases hx : isPre (str "Nullable\x7b") o
      · exact absurd hx hb
      · rfl
    exact h (isPre_subset hb' lbrace (by decide))
  rw [h1, h2]
  simp

theorem genericMatch_none_of_no_brace {o : Str} (h : lbrace ∉ o) :
    genericMatch o = none := by
  unfold genericMatch
  rw [if_neg]
  intro hcond
  have h1 := hcond.2.1
  have h2 := isPre_subset h1 lbrace (by decide)
  exact h (List.drop_subset _ _ h2)

mutual
theorem valInv_form : (f : AForm) → ValInvB (valA f) = true ∧ 2 ≤ (valA f).length
  | AForm.base i => by
    exact (by decide : ∀ j : Fin 16, ValInvB (aliasVal j) = true ∧ 2 ≤ (aliasVal j).length) i
  | AForm.arr f => by
    obtain ⟨hI, hlen⟩ := valInv_form f
    simp only [ValInvB, Bool.and_eq_true, Bool.not_eq_true'] at hI
    obtain ⟨⟨⟨hE, hAll⟩, _hEnds⟩, _hLk⟩ := hI
    obtain ⟨a, b, ha, hb, hwa, hwb, hb1, hb2⟩ := edgeOk_dest hE
    have e2 : valA (AForm.arr f) = (str "List[" ++ valA f) ++ [']'] := by
      simp only [valA]
      rw [show str "]" = ([']'] : Str) from rfl]
    have e1 : valA (AForm.arr f) = ('L' :: (str "ist[" ++ valA f)) ++ [']'] := by
      rw [e2, show str "List[" = 'L' :: str "ist[" from rfl]
      simp [List.cons_append]
    constructor
    · simp only [ValInvB, Bool.and_eq_true, Bool.not_eq_true']
      refine ⟨⟨⟨?_, ?_⟩, ?_⟩, ?_⟩
      · rw [e1]
        exact edgeOk_shape 'L' ']' _ (by decide) (by decide) (by decide) (by decide)
      · simp only [valA, List.all_append, hAll, Bool.true_and, Bool.and_true]
        decide
      · rw [e2]
        exact endsW_sq_false (str "List[") (valA f) b hb hb1
      · rw [lookupL_aliases_none (Or.inl (by
          simp only [valA]
          exact List.mem_append.mpr (Or.inl (List.mem_append.mpr (Or.inl (by decide))))))]
    · have h5 : (str "List[").length = 5 := rfl
      simp only [valA, List.length_append, h5]
      omega
  | AForm.nul f => by
    obtain ⟨hI, hlen⟩ := valInv_form f
    simp only [ValInvB, Bool.and_eq_true, Bool.not_eq_true'] at hI
    obtain ⟨⟨⟨hE, hAll⟩, _hEnds⟩, _hLk⟩ := hI
    obtain ⟨a, b, ha, hb, hwa, hwb, hb1, hb2⟩ := edgeOk_dest hE
    have e2 : valA (AForm.nul f) = (str "Optional[" ++ valA f) ++ [']'] := by
      simp only [valA]
      rw [show str "]" = ([']'] : Str) from rfl]
    have e1 : valA (AForm.nul f) = ('O' :: (str "ptional[" ++ valA f)) ++ [']'] := by
      rw [e2, show str "Optional[" = 'O' :: str "ptional[" from rfl]
      simp [List.cons_append]
    constructor
    · simp only [ValInvB, Bool.and_eq_true, Bool.not_eq_true']
      refine ⟨⟨⟨?_, ?_⟩, ?_⟩, ?_⟩
      · rw [e1]
        exact edgeOk_shape 'O' ']' _ (by decide) (by decide) (by decide) (by decide)
      · simp only [valA, List.all_append, hAll, Bool.true_and, Bool.and_true]
        decide
      · rw [e2]
        exact endsW_sq_false (str "Optional[") (valA f) b hb hb1
      · rw [lookupL_aliases_none (Or.inl (by
          simp only [valA]
          exact List.mem_append.mpr (Or.inl (List.mem_append.mpr (Or.inl (by decide))))))]
    · have h9 : (str "Optional[").length = 9 := rfl
      simp only [valA, List.length_append, h9]
      omega
  | AForm.gen b args => by
    obtain ⟨hI, hlen⟩ := valInv_args args
    simp only [ValInvB, Bool.and_eq_true, Bool.not_eq_true'] at hI
    obtain ⟨⟨⟨hE, hAll⟩, hEnds⟩, _hLk⟩ := hI
    obtain ⟨a, c, ha, hc, hwa, hwc, hc1, hc2⟩ := edgeOk_dest hE
    have hbv : edgeOk (baseVal b) = true :=
      (by decide : ∀ j : Fin 8, edgeOk (baseVal j) = true) b
    have e2 : valA (AForm.gen b args) = ((baseVal b ++ str "[") ++ valArgs args) ++ [']'] := by
      simp only [valA]
      rw [show str "]" = ([']'] : Str) from rfl]
    have e3 : valA (AForm.gen b args) =
        ((baseVal b ++ str "[") ++ (valArgs args ++ [']'])) := by
      rw [e2, List.append_assoc]
    constructor
    · simp only [ValInvB, Bool.and_eq_true, Bool.not_eq_true']
      refine ⟨⟨⟨?_, ?_⟩, ?_⟩, ?_⟩
      · rw [e3]
        have hw : edgeOk (valArgs args ++ [']']) = true := by
          have := edgeOk_concat (valArgs args) [] [']'] hE (by decide)
          simpa using this
        exact edgeOk_concat (baseVal b) (str "[") (valArgs args ++ [']']) hbv hw
      · simp only [valA, List.all_append, hAll, Bool.true_and, Bool.and_true]
        exact (by decide : ∀ j : Fin 8,
          (List.all (baseVal j) okOut && List.all (str "[") okOut &&
            List.all (str "]") okOut) = true) b
      · rw [e2]
        exact endsW_sq_false (baseVal b ++ str "[") (valArgs args) c hc hc1
      · rw [lookupL_aliases_none (Or.inl (by
          simp only [valA]
          refine List.mem_append.mpr (Or.inl ?_)
          refine List.mem_append.mpr (Or.inl ?_)
          exact List.mem_append.mpr (Or.inr (by decide))))]
    · have h1 : (str "[").length = 1 := rfl
      simp only [valA, List.length_append, h1]
      omega
theorem valInv_args : (args : AFormArgs) →
    ValInvB (valArgs args) = true ∧ 2 ≤ (valArgs args).length
  | AFormArgs.one f => by
    simp only [valArgs]
    exact valInv_form f
  | AFormArgs.cons f rest => by
    obtain ⟨hI, hlen⟩ := valInv_form f
    obtain ⟨hJ, hlenr⟩ := valInv_args rest
    simp only [ValInvB, Bool.and_eq_true, Bool.not_eq_true'] at hI hJ
    obtain ⟨⟨⟨hE, hAll⟩, _⟩, _⟩ := hI
    obtain ⟨⟨⟨hEr, hAllr⟩, hEndsr⟩, _⟩ := hJ
    have e1 : valArgs (AFormArgs.cons f rest) = (valA f ++ str ", ") ++ valArgs rest := by
      simp only [valArgs]
    constructor
    · simp only [ValInvB, Bool.and_eq_true, Bool.not_eq_true']
      refine ⟨⟨⟨?_, ?_⟩, ?_⟩, ?_⟩
      · rw [e1]
        exact edgeOk_concat (valA f) (str ", ") (valArgs rest) hE hEr
      · simp only [valArgs, List.all_append, hAll, hAllr, Bool.true_and, Bool.and_true]
        decide
      · rw [e1, endsW_append_ge2 (valA f ++ str ", ") (valArgs rest) hlenr]
        exact hEndsr
      · rw [lookupL_aliases_none (Or.inr (Or.inl (by
          simp only [valArgs]
          refine List.mem_append.mpr (Or.inl ?_)
          exact List.mem_append.mpr (Or.inr (by decide)))))]
    · have h2 : (str ", ").length = 2 := rfl
      simp only [valArgs, List.length_append, h2]
      omega
end

theorem endsW_append_self (A pat : Str) : endsW (A ++ pat) pat = true := by
  unfold endsW
  rw [List.reverse_append]
  exact isPre_append_self _ _

theorem dropR_append_len (A B : Str) : dropR B.length (A ++ B) = A := by
  unfold dropR
  rw [List.length_append, Nat.add_sub_cancel]
  exact List.take_left A B

theorem endsW_sq_false_of_last {o : Str} {c : Char} (h : o.reverse.head? = some c)
    (hc : c ≠ ']') : endsW o (str "[]") = false := by
  unfold endsW
  rw [show (str "[]").reverse = ([']', '['] : Str) from rfl]
  cases hor : o.reverse with
  | nil => rw [hor] at h; simp at h
  | cons d ds =>
    rw [hor] at h
    simp only [List.head?_cons, Option.some.injEq] at h
    subst h
    simp only [isPre]
    simp [Ne.symm hc]

theorem okCh_no_ws {r : Str} (h : r.all okCh = true) : ∀ c ∈ r, pyWS c = false := by
  intro c hc
  have := List.all_eq_true.mp h c hc
  simp only [okCh, Bool.and_eq_true, Bool.not_eq_true'] at this
  exact this.1.1.1.1.1

theorem okCh_no_nl {r : Str} (h : r.all okCh = true) : hasChar '\n' r = false := by
  simp only [hasChar, decide_eq_false_iff_not]
  intro hm
  have := List.all_eq_true.mp h '\n' hm
  simp [okCh] at this

theorem pyStrip_eq_self_of_no_ws (r : Str) (h : ∀ c ∈ r, pyWS c = false) : pyStrip r = r := by
  have h1 : trimLeft r = r := by
    cases r with
    | nil => rfl
    | cons c cs =>
      simp [trimLeft, List.dropWhile_cons, h c (by simp)]
  have h2 : trimRight r = r := by
    unfold trimRight
    cases hor : r.reverse with
    | nil =>
      have := congrArg List.reverse hor
      simpa using this.symm
    | cons c cs =>
      have hcr : c ∈ r := by
        rw [← List.mem_reverse, hor]
        simp
      rw [List.dropWhile_cons]
      simp only [h c hcr, if_false]
      have := congrArg List.reverse hor
      simpa using this.symm
  rw [pyStrip, h1, h2]

theorem pyStripAll {r : Str} (h : r.all okCh = true) : pyStrip r = r :=
  pyStrip_eq_self_of_no_ws r (okCh_no_ws h)

theorem takeWhile_append_all (p : Char → Bool) :
    ∀ (a b : Str), a.all p = true → List.takeWhile p (a ++ b) = a ++ List.takeWhile p b := by
  intro a
  induction a with
  | nil => intro b _; simp
  | cons c cs ih =>
    intro b h
    simp only [List.all_cons, Bool.and_eq_true] at h
    simp only [List.cons_append, List.takeWhile_cons, h.1, if_true]
    rw [ih b h.2]

theorem isPre_false_of_incomp (pat kb t : Str) (hkb : kb <+: t) (h1 : ¬ (pat <+: kb))
    (h2 : ¬ (kb <+: pat)) : isPre pat t = false := by
  cases hx : isPre pat t with
  | false => rfl
  | true =>
    exfalso
    have hp : pat <+: t := (isPre_iff_pfx pat t).mp hx
    rcases List.prefix_or_prefix_of_prefix hp hkb with h | h
    · exact h1 h
    · exact h2 h

theorem joinCommaSp_cons_cons (a b : Str) (l : List Str) :
    joinCommaSp (a :: b :: l) = a ++ str ", " ++ joinCommaSp (b :: l) := by
  simp only [joinCommaSp, List.intercalate]
  rw [show List.intersperse (str ", ") (a :: b :: l) =
    a :: str ", " :: List.intersperse (str ", ") (b :: l) from rfl]
  simp [List.flatten, List.append_assoc]

theorem joinCommaSp_one (a : Str) : joinCommaSp [a] = a := by
  simp [joinCommaSp, List.intercalate]

theorem valList_shape : ∀ args : AFormArgs, ∃ v l, valList args = v :: l := by
  intro args
  cases args with
  | one f => exact ⟨valA f, [], rfl⟩
  | cons f rest => exact ⟨valA f, valList rest, rfl⟩

theorem valArgs_join : (args : AFormArgs) → joinCommaSp (valList args) = valArgs args
  | AFormArgs.one f => by simp [valList, valArgs, joinCommaSp_one]
  | AFormArgs.cons f rest => by
    obtain ⟨v, l, hv⟩ := valList_shape rest
    simp only [valList, valArgs]
    rw [hv, joinCommaSp_cons_cons, ← hv, valArgs_join rest]

theorem rendersList_ne : (args : AFormArgs) → ∀ p : Str, p ∈ rendersList args → p ≠ []
  | AFormArgs.one f => by
    intro p hp
    simp only [rendersList, List.mem_singleton] at hp
    subst hp
    exact (renInv_form f).1
  | AFormArgs.cons f rest => by
    intro p hp
    rcases List.mem_cons.mp hp with hp | hp
    · subst hp
      exact (renInv_form f).1
    · exact rendersList_ne rest p hp

theorem mapA_fixed (o : Str) (h : ValInvB o = true) : mapA o = o := by
  simp only [ValInvB, Bool.and_eq_true, Bool.not_eq_true'] at h
  obtain ⟨⟨⟨hE, hAll⟩, hEnds⟩, hLk⟩ := h
  obtain ⟨a, b, ha, hb, hwa, hwb, hb1, hb2⟩ := edgeOk_dest hE
  have hstrip : pyStrip o = o := pyStrip_eq_self_of_edgeOk hE
  have hnb : lbrace ∉ o := not_mem_of_all_okOut hAll
  have hq : endsW o (str "?") = false := by
    rw [show str "?" = (['?'] : Str) from rfl]
    exact endsW_singleton_false hb hb2
  show mapFuel (o.length + 1) o none none = o
  simp only [mapFuel, hstrip, hEnds, Bool.false_eq_true, if_false,
    nullableInner_none_of_no_brace hnb, hq, false_and,
    genericMatch_none_of_no_brace hnb]
  cases hlk2 : lookupL o aliases with
  | none => simp [hlk2]
  | some v =>
    rw [hlk2] at hLk
    simp only [decide_eq_true_eq] at hLk
    simp [hlk2, hLk]

theorem splitTypesAux_consume :
    ∀ (r rest buf : Str) (dc dc2 : Nat), scanB dc r = some dc2 → r.all okCh = true →
      splitTypesAux (r ++ rest) buf 0 dc 0 = splitTypesAux rest (r.reverse ++ buf) 0 dc2 0 := by
  intro r
  induction r with
  | nil =>
    intro rest buf dc dc2 h _
    simp only [scanB, Option.some.injEq] at h
    subst h
    simp
  | cons c cs ih =>
    intro rest buf dc dc2 h hall
    simp only [List.all_cons, Bool.and_eq_true] at hall
    have hok := hall.1
    simp only [okCh, Bool.and_eq_true, Bool.not_eq_true', decide_eq_true_eq] at hok
    obtain ⟨⟨⟨⟨⟨_hws, hlt⟩, hgt⟩, hlp⟩, hrp⟩, _hnl⟩ := hok
    by_cases h1 : c = lbrace
    · subst h1
      simp only [scanB, if_true] at h
      have hstep : dstep (0, dc, 0) lbrace = (0, dc + 1, 0) := by
        simp [dstep, lbrace, rbrace]
      rw [List.cons_append,
        splitTypesAux_step lbrace (cs ++ rest) buf 0 dc 0 0 (dc + 1) 0 hstep (by
          intro hcon
          exact absurd hcon.1 (by decide)),
        ih rest (lbrace :: buf) (dc + 1) dc2 h hall.2]
      simp [List.append_assoc]
    · by_cases h2 : c = rbrace
      · subst h2
        simp only [scanB, h1, if_false, if_true] at h
        by_cases hd : dc = 0
        · rw [if_pos hd] at h
          simp at h
        · rw [if_neg hd] at h
          have hstep : dstep (0, dc, 0) rbrace = (0, dc - 1, 0) := by
            simp [dstep, lbrace, rbrace]
          rw [List.cons_append,
            splitTypesAux_step rbrace (cs ++ rest) buf 0 dc 0 0 (dc - 1) 0 hstep (by
              intro hcon
              exact absurd hcon.1 (by decide)),
            ih rest (rbrace :: buf) (dc - 1) dc2 h hall.2]
          simp [List.append_assoc]
      · by_cases h3 : c = ','
        · subst h3
          simp only [scanB, h1, h2, if_false, if_true] at h
          by_cases hd : dc = 0
          · rw [if_pos hd] at h
            simp at h
          · rw [if_neg hd] at h
            have hstep : dstep (0, dc, 0) ',' = (0, dc, 0) := by
              simp [dstep, lbrace, rbrace]
            rw [List.cons_append,
              splitTypesAux_step ',' (cs ++ rest) buf 0 dc 0 0 dc 0 hstep (by
                intro hcon
                exact absurd hcon.2.2.1 hd),
              ih rest (',' :: buf) dc dc2 h hall.2]
            simp [List.append_assoc]
        · simp only [scanB, h1, h2, h3, if_false] at h
          have hstep : dstep (0, dc, 0) c = (0, dc, 0) := by
            simp [dstep, hlt, hgt, h1, h2, hlp, hrp]
          rw [List.cons_append,
            splitTypesAux_step c (cs ++ rest) buf 0 dc 0 0 dc 0 hstep (by
              intro hcon
              exact absurd hcon.1 h3),
            ih rest (c :: buf) dc dc2 h hall.2]
          simp [List.append_assoc]

theorem split_renderArgs : (args : AFormArgs) →
    splitTypesAux (renderArgs args) [] 0 0 0 = rendersList args
  | AFormArgs.one f => by
    obtain ⟨h1, h2, h3⟩ := renInv_form f
    have e : renderA f ++ ([] : Str) = renderA f := List.append_nil _
    rw [show renderArgs (AFormArgs.one f) = renderA f from rfl, ← e,
      splitTypesAux_consume (renderA f) [] [] 0 0 (h3 0) h2]
    simp only [splitTypesAux, List.append_nil]
    rw [if_neg (by simpa using h1)]
    rw [List.reverse_reverse, pyStripAll h2]
    rfl
  | AFormArgs.cons f rest => by
    obtain ⟨h1, h2, h3⟩ := renInv_form f
    have e : renderArgs (AFormArgs.cons f rest) = renderA f ++ (',' :: renderArgs rest) := by
      simp only [renderArgs]
      simp [List.append_assoc]
    rw [e, splitTypesAux_consume (renderA f) (',' :: renderArgs rest) [] 0 0 (h3 0) h2]
    rw [List.append_nil, splitTypesAux_comma]
    rw [List.reverse_reverse, pyStripAll h2]
    rw [split_renderArgs rest]
    rfl

theorem split_types_renderArgs (args : AFormArgs) :
    split_types_list (renderArgs args) = rendersList args := by
  unfold split_types_list
  rw [split_renderArgs args]
  apply List.filter_eq_self.mpr
  intro p hp
  simpa using rendersList_ne args p hp

mutual
theorem mapRender_form : (f : AForm) → mapA (renderA f) = valA f
  | AForm.base i => by
    simp only [renderA, valA]
    exact (by decide : ∀ j : Fin 16, mapA (aliasKey j) = aliasVal j) i
  | AForm.arr f => by
    obtain ⟨hne, hok, _hscan⟩ := renInv_form f
    simp only [renderA, valA]
    have hallw : (renderA f ++ str "[]").all okCh = true := by
      simp only [List.all_append, hok, Bool.true_and]
      decide
    have hstrip := pyStripAll hallw
    have hlen : (renderA f).length < (renderA f ++ str "[]").length := by
      rw [List.length_append, show (str "[]").length = 2 from rfl]
      omega
    show mapFuel ((renderA f ++ str "[]").length + 1) (renderA f ++ str "[]") none none = _
    generalize hL : (renderA f ++ str "[]").length = n at hlen
    simp only [mapFuel]
    rw [hstrip, if_pos (endsW_append_self (renderA f) (str "[]"))]
    have hdrop : dropR 2 (renderA f ++ str "[]") = renderA f := by
      rw [show (2 : Nat) = (str "[]").length from rfl]
      exact dropR_append_len _ _
    rw [hdrop, pyStripAll hok]
    rw [mapFuel_irrel n ((renderA f).length + 1) (renderA f)
      none none hlen (Nat.lt_succ_self _)]
    have ihf : mapFuel ((renderA f).length + 1) (renderA f) none none = valA f :=
      mapRender_form f
    rw [ihf]
  | AForm.nul f => by
    obtain ⟨hne, hok, _hscan⟩ := renInv_form f
    simp only [renderA, valA]
    have hassoc : (str "Nullable\x7b" ++ renderA f) ++ [rbrace] =
        str "Nullable\x7b" ++ (renderA f ++ [rbrace]) := List.append_assoc _ _ _
    have hallw : ((str "Nullable\x7b" ++ renderA f) ++ [rbrace]).all okCh = true := by
      simp only [List.all_append, hok, Bool.true_and, Bool.and_true]
      decide
    have hstrip := pyStripAll hallw
    have hlast : ((str "Nullable\x7b" ++ renderA f) ++ [rbrace]).reverse.head? = some rbrace := by
      simp [List.reverse_append]
    have hbf : endsW ((str "Nullable\x7b" ++ renderA f) ++ [rbrace]) (str "[]") = false :=
      endsW_sq_false_of_last hlast (by decide)
    have hsys : isPre (str "System.Nullable\x7b")
        ((str "Nullable\x7b" ++ renderA f) ++ [rbrace]) = false := by
      refine isPre_false_of_incomp _ (str "Nullable\x7b") _ ?_ (by decide) (by decide)
      rw [hassoc]
      exact List.prefix_append _ _
    have hpre : isPre (str "Nullable\x7b") ((str "Nullable\x7b" ++ renderA f) ++ [rbrace]) =
        true := by
      rw [hassoc]
      exact isPre_append_self _ _
    have hdrop9 : ((str "Nullable\x7b" ++ renderA f) ++ [rbrace]).drop 9 =
        renderA f ++ [rbrace] := by
      rw [hassoc, show (9 : Nat) = (str "Nullable\x7b").length from rfl]
      exact List.drop_left _ _
    have hdrop1 : dropR 1 (renderA f ++ [rbrace]) = renderA f := by
      rw [show (1 : Nat) = ([rbrace] : Str).length from rfl]
      exact dropR_append_len _ _
    have hN : nullableInner ((str "Nullable\x7b" ++ renderA f) ++ [rbrace]) =
        some (renderA f) := by
      unfold nullableInner
      rw [hsys]
      simp only [Bool.false_eq_true, if_false]
      rw [if_pos hpre, hdrop9]
      unfold nullCheckBody
      rw [if_pos ⟨endsW_append_self (renderA f) [rbrace], by
        constructor
        · rw [List.length_append]
          have : 1 ≤ (renderA f).length := by
            cases hr : renderA f with
            | nil => exact absurd hr hne
            | cons c cs => simp [hr]
          simp only [List.length_cons, List.length_nil]
          omega
        · rw [hdrop1]
          exact okCh_no_nl hok⟩]
      rw [hdrop1]
    have hlen : (renderA f).length < ((str "Nullable\x7b" ++ renderA f) ++ [rbrace]).length := by
      rw [List.length_append, List.length_append, show (str "Nullable\x7b").length = 9 from rfl]
      simp only [List.length_cons, List.length_nil]
      omega
    show mapFuel (((str "Nullable\x7b" ++ renderA f) ++ [rbrace]).length + 1)
      ((str "Nullable\x7b" ++ renderA f) ++ [rbrace]) none none = _
    generalize hL : ((str "Nullable\x7b" ++ renderA f) ++ [rbrace]).length = n at hlen
    simp only [mapFuel]
    rw [hstrip, if_neg (by simp only [hbf]; exact Bool.false_ne_true)]
    simp only [hN]
    rw [pyStripAll hok]
    rw [mapFuel_irrel n ((renderA f).length + 1) (renderA f) none none hlen
      (Nat.lt_succ_self _)]
    have ihf : mapFuel ((renderA f).length + 1) (renderA f) none none = valA f :=
      mapRender_form f
    rw [ihf]
  | AForm.gen b args => by
    obtain ⟨g1, g2, _g3⟩ := renInv_args args
    simp only [renderA, valA]
    have hassoc : ((baseKey b ++ [lbrace]) ++ renderArgs args) ++ [rbrace] =
        baseKey b ++ (lbrace :: (renderArgs args ++ [rbrace])) := by
      rw [List.append_assoc, List.append_assoc]
      rfl
    have hallw : (((baseKey b ++ [lbrace]) ++ renderArgs args) ++ [rbrace]).all okCh = true := by
      simp only [List.all_append, g2, Bool.true_and, Bool.and_true]
      exact (by decide : ∀ j : Fin 8,
        (List.all (baseKey j) okCh && List.all [lbrace] okCh && List.all [rbrace] okCh) = true) b
    have hstrip := pyStripAll hallw
    have hlast : (((baseKey b ++ [lbrace]) ++ renderArgs args) ++ [rbrace]).reverse.head? =
        some rbrace := by
      simp [List.reverse_append]
    have hbf : endsW (((baseKey b ++ [lbrace]) ++ renderArgs args) ++ [rbrace]) (str "[]") =
        false := endsW_sq_false_of_last hlast (by decide)
    have hkb : (baseKey b ++ [lbrace]) <+:
        (((baseKey b ++ [lbrace]) ++ renderArgs args) ++ [rbrace]) := by
      rw [List.append_assoc]
      exact List.prefix_append _ _
    have hsys : isPre (str "System.Nullable\x7b")
        (((baseKey b ++ [lbrace]) ++ renderArgs args) ++ [rbrace]) = false :=
      isPre_false_of_incomp _ (baseKey b ++ [lbrace]) _ hkb
        ((by decide : ∀ j : Fin 8,
          ¬ (str "System.Nullable\x7b" <+: baseKey j ++ [lbrace])) b)
        ((by decide : ∀ j : Fin 8,
          ¬ (baseKey j ++ [lbrace] <+: str "System.Nullable\x7b")) b)
    have hnul : isPre (str "Nullable\x7b")
        (((baseKey b ++ [lbrace]) ++ renderArgs args) ++ [rbrace]) = false :=
      isPre_false_of_incomp _ (baseKey b ++ [lbrace]) _ hkb
        ((by decide : ∀ j : Fin 8, ¬ (str "Nullable\x7b" <+: baseKey j ++ [lbrace])) b)
        ((by decide : ∀ j : Fin 8, ¬ (baseKey j ++ [lbrace] <+: str "Nullable\x7b")) b)
    have hN : nullableInner (((baseKey b ++ [lbrace]) ++ renderArgs args) ++ [rbrace]) =
        none := by
      unfold nullableInner
      rw [hsys, hnul]
      simp
    have hq : endsW (((baseKey b ++ [lbrace]) ++ renderArgs args) ++ [rbrace]) (str "?") =
        false := by
      rw [show str "?" = (['?'] : Str) from rfl]
      exact endsW_singleton_false hlast (by decide)
    have htake : (((baseKey b ++ [lbrace]) ++ renderArgs args) ++ [rbrace]).takeWhile
        isWordDot = baseKey b := by
      rw [hassoc, takeWhile_append_all isWordDot _ _
        ((by decide : ∀ j : Fin 8, (baseKey j).all isWordDot = true) b)]
      rw [List.takeWhile_cons]
      simp only [show isWordDot lbrace = false from by decide, if_false]
      exact List.append_nil _
    have hrest : (((baseKey b ++ [lbrace]) ++ renderArgs args) ++ [rbrace]).drop
        (baseKey b).length = lbrace :: (renderArgs args ++ [rbrace]) := by
      rw [hassoc]
      exact List.drop_left _ _
    have hinner : dropR 1 ((lbrace :: (renderArgs args ++ [rbrace])).drop 1) =
        renderArgs args := by
      rw [show (lbrace :: (renderArgs args ++ [rbrace])).drop 1 =
        renderArgs args ++ [rbrace] from rfl]
      rw [show (1 : Nat) = ([rbrace] : Str).length from rfl]
      exact dropR_append_len _ _
    have hG : genericMatch (((baseKey b ++ [lbrace]) ++ renderArgs args) ++ [rbrace]) =
        some (baseKey b, renderArgs args) := by
      simp only [genericMatch]
      rw [htake, hrest, hinner]
      rw [if_pos ⟨(by decide : ∀ j : Fin 8, baseKey j ≠ []) b, by
        rw [show (lbrace :: (renderArgs args ++ [rbrace])) =
          [lbrace] ++ (renderArgs args ++ [rbrace]) from rfl]
        exact isPre_append_self _ _, endsW_append_self _ _, g1, okCh_no_nl g2⟩]
    have hra : (renderArgs args).length <
        (((baseKey b ++ [lbrace]) ++ renderArgs args) ++ [rbrace]).length := by
      rw [List.length_append, List.length_append, List.length_append]
      simp only [List.length_cons, List.length_nil]
      omega
    show mapFuel ((((baseKey b ++ [lbrace]) ++ renderArgs args) ++ [rbrace]).length + 1)
      (((baseKey b ++ [lbrace]) ++ renderArgs args) ++ [rbrace]) none none = _
    generalize hL : (((baseKey b ++ [lbrace]) ++ renderArgs args) ++ [rbrace]).length = n at hra
    simp only [mapFuel]
    rw [hstrip, if_neg (by simp only [hbf]; exact Bool.false_ne_true)]
    simp only [hN]
    rw [if_neg (by
      intro hcon
      have hcc := hcon.1
      rw [hq] at hcc
      exact Bool.false_ne_true hcc)]
    simp only [hG]
    rw [split_types_renderArgs args]
    have hmap : (rendersList args).map (fun p => mapFuel n p none none) = valList args := by
      have hcg : ∀ p ∈ rendersList args,
          mapFuel n p none none = mapFuel (p.length + 1) p none none := by
        intro p hp
        have hpl : p.length ≤ (renderArgs args).length := by
          have : p ∈ split_types_list (renderArgs args) := by
            rw [split_types_renderArgs args]
            exact hp
          exact split_types_part_length this
        exact mapFuel_irrel n (p.length + 1) p none none (by omega) (Nat.lt_succ_self _)
      rw [List.map_congr_left hcg]
      exact mapRender_args args
    rw [hmap]
    rw [(by decide : ∀ j : Fin 8, lookupL (baseKey j) base_map = some (baseVal j)) b]
    simp only [Option.getD_some]
    rw [valArgs_join args]
theorem mapRender_args : (args : AFormArgs) →
    (rendersList args).map (fun p => mapFuel (p.length + 1) p none none) = valList args
  | AFormArgs.one f => by
    simp only [rendersList, valList, List.map_cons, List.map_nil]
    have ihf : mapFuel ((renderA f).length + 1) (renderA f) none none = valA f :=
      mapRender_form f
    rw [ihf]
  | AFormArgs.cons f rest => by
    simp only [rendersList, valList, List.map_cons]
    have ihf : mapFuel ((renderA f).length + 1) (renderA f) none none = valA f :=
      mapRender_form f
    rw [ihf, mapRender_args rest]
end

/-- Claim C3, amended: Variant A (`map_dotnet_to_python`, embedded as `mapA`)
is idempotent on every alias-table entry and on every array (`[]`),
nullable (`Nullable\x7b..\x7d` / `..?`) and generic (`Base\x7b..\x7d`) form built from the
alias table: a second application leaves the first application's output
unchanged. Variant B (`rs_map_type` in dotnet style) is idempotent on its
primitive outputs `None`, `bool`, `float`, `int`, `str`, `datetime.date` and
`Any`, but not on all of its outputs (counterexample: `guid` maps to
`System.Guid`, which maps to `Any`). -/
theorem c3_amended :
    (∀ f : AForm, mapA (mapA (renderA f)) = mapA (renderA f)) ∧
    (rs_map_type (str "dotnet") (rs_map_type (str "dotnet") (str "None")) =
      rs_map_type (str "dotnet") (str "None")) ∧
    (rs_map_type (str "dotnet") (rs_map_type (str "dotnet") (str "bool")) =
      rs_map_type (str "dotnet") (str "bool")) ∧
    (rs_map_type (str "dotnet") (rs_map_type (str "dotnet") (str "float")) =
      rs_map_type (str "dotnet") (str "float")) ∧
    (rs_map_type (str "dotnet") (rs_map_type (str "dotnet") (str "int")) =
      rs_map_type (str "dotnet") (str "int")) ∧
    (rs_map_type (str "dotnet") (rs_map_type (str "dotnet") (str "str")) =
      rs_map_type (str "dotnet") (str "str")) ∧
    (rs_map_type (str "dotnet") (rs_map_type (str "dotnet") (str "datetime.date")) =
      rs_map_type (str "dotnet") (str "datetime.date")) ∧
    (rs_map_type (str "dotnet") (rs_map_type (str "dotnet") (str "Any")) =
      rs_map_type (str "dotnet") (str "Any")) := by
  refine ⟨fun f => ?_, by decide, by decide, by decide, by decide, by decide,
    by decide, by decide⟩
  rw [mapRender_form f, mapA_fixed _ (valInv_form f).1]
